import Mathlib

/-!
Shallow embedding of the `rkmemory` arena allocator
(src/arena_alloc/arena_alloc.c and src/rkmemory/rkarena.h).

Modelling conventions:
* `size_t` values are `Nat`; the two places where the C code performs
  `size_t` arithmetic that can wrap (`offset + numBytes` in `rkArenaAlloc` /
  `rkAllocFromPage`, and `sizeof(rkAllocPage) + size` in `rkNewPage`) are
  embedded with an explicit `% W` where `W = 2 ^ 64`.
* The OS backend (`rkOsMalloc` / `rkOsFree`, i.e. `mmap` / `munmap`) is a
  counting backend: it records every acquisition and release together with the
  requested byte count, and hands out a fresh region identifier (the call
  counter) for every successful acquisition; distinct live mappings are
  disjoint, so a pointer is modelled as a region identifier plus an offset.
  The oracle `ok : Nat -> Bool` decides whether the i-th OS call succeeds.
* A fresh region's contents are unspecified in C; they are modelled by the
  oracle `junk : Nat -> Nat -> Nat` (region id -> index -> byte).
* The page chain (`rkAllocPage.next`) is a Lean list, newest first; the tail
  of the list is the `next` link.
* `H` stands for `sizeof(rkAllocPage)` and `A` for `sizeof(rkArena)`; all
  results are proved for arbitrary values of these layout constants.
* The debug assertions (`RK_ARENA_ASSERT`) compile to `(void)0` in a release
  build; the embedding is the release build, so asserts are dropped.
-/

namespace RkArena

/-- `2 ^ 64`, the modulus of `size_t` arithmetic. -/
def W : Nat := 2 ^ 64

/-- The counting OS backend: a call counter plus the chronological lists of
acquisitions and releases, each recorded as (region id, byte count). -/
structure Backend where
  calls : Nat
  acquired : List (Nat × Nat)
  released : List (Nat × Nat)
deriving DecidableEq

/-- `rkOsMalloc` (`mmap` on Linux): the oracle `ok` decides whether the
current call succeeds; on success the region id handed out is the call
counter, and the acquisition is recorded. -/
def rkOsMalloc (ok : Nat → Bool) (b : Backend) (numBytes : Nat) :
    Option Nat × Backend :=
  if ok b.calls then
    (some b.calls,
     ⟨b.calls + 1, b.acquired ++ [(b.calls, numBytes)], b.released⟩)
  else
    (none, ⟨b.calls + 1, b.acquired, b.released⟩)

/-- `rkOsFree` (`munmap` on Linux): records the release. -/
def rkOsFree (b : Backend) (pid numBytes : Nat) : Backend :=
  ⟨b.calls, b.acquired, b.released ++ [(pid, numBytes)]⟩

/-- `struct rkAllocPage`: `id` models the base address of the backing region,
`mem` its byte contents, `offset` the bump offset and `size` the capacity.
The `next` link is the tail of the arena's page list. -/
structure rkAllocPage where
  id : Nat
  mem : Nat → Nat
  offset : Nat
  size : Nat

/-- `struct rkArena`: `selfId` models the address of the arena header
(the backend region holding the header), `curr` is the newest-first page
chain. -/
structure rkArena where
  selfId : Nat
  pageSize : Nat
  curr : List rkAllocPage

/-- A pointer returned by the allocator: a backing-region identifier plus an
offset into that region.  Distinct live regions are disjoint, so two pointers
address the same byte iff they are equal. -/
structure Ptr where
  page : Nat
  off : Nat
deriving DecidableEq

/-- `DEFAULT_PAGE_SIZE` = `8 * 1024`. -/
def DEFAULT_PAGE_SIZE : Nat := 8 * 1024

variable (ok : Nat → Bool) (junk : Nat → Nat → Nat) (H A : Nat)

/-- `rkNewPage`: acquires `sizeof(rkAllocPage) + size` bytes (a `size_t`
product/sum, hence `% W`) and initializes offset 0, capacity `size` and
unspecified contents.  The `next` argument of the C function is the list tail
chosen by the caller. -/
def rkNewPage (b : Backend) (size : Nat) : Option rkAllocPage × Backend :=
  match rkOsMalloc ok b ((H + size) % W) with
  | (none, b') => (none, b')
  | (some pid, b') => (some ⟨pid, junk pid, 0, size⟩, b')

/-- `rkNewArena`: acquires the arena header, then the initial page.  Note the
C code returns `NULL` on page failure without releasing the already acquired
header. -/
def rkNewArena (b : Backend) (pageSize : Nat) : Option rkArena × Backend :=
  match rkOsMalloc ok b A with
  | (none, b') => (none, b')
  | (some aid, b') =>
    match rkNewPage ok junk H b' pageSize with
    | (none, b'') => (none, b'')
    | (some page, b'') => (some ⟨aid, pageSize, [page]⟩, b'')

/-- `rkCreateArena`. -/
def rkCreateArena (b : Backend) : Option rkArena × Backend :=
  rkNewArena ok junk H A b DEFAULT_PAGE_SIZE

/-- `rkCreateArenaWithPageSize`. -/
def rkCreateArenaWithPageSize (b : Backend) (pageSize : Nat) :
    Option rkArena × Backend :=
  rkNewArena ok junk H A b pageSize

/-- `rkFreeArena`: walks the chain releasing every page with
`sizeof(rkAllocPage) + sizeof(uint8_t) * p->size` bytes, then releases the
arena header with `sizeof(rkArena)` bytes. -/
def rkFreeArena (b : Backend) (a : rkArena) : Backend :=
  rkOsFree
    (a.curr.foldl (fun acc p => rkOsFree acc p.id ((H + p.size) % W)) b)
    a.selfId A

/-- `rkResetArena`: sets every page's offset to 0. -/
def rkResetArena (a : rkArena) : rkArena :=
  ⟨a.selfId, a.pageSize, a.curr.map fun p => ⟨p.id, p.mem, 0, p.size⟩⟩

/-- `rkAllocFromPage`: returns the pointer at the pre-bump offset and bumps
the offset by `numBytes` (a `size_t` addition, hence `% W`). -/
def rkAllocFromPage (page : rkAllocPage) (numBytes : Nat) :
    Ptr × rkAllocPage :=
  (⟨page.id, page.offset⟩,
   ⟨page.id, page.mem, (page.offset + numBytes) % W, page.size⟩)

/-- `rkArenaAlloc`: if `currPage->offset + numBytes > currPage->size`
(`size_t` comparison) a fresh page of `pageSize` bytes becomes the new head
and serves the whole request, otherwise the head page serves it.  The `[]`
case is unreachable for a successfully created arena (in C it would
dereference a null head). -/
def rkArenaAlloc (b : Backend) (a : rkArena) (numBytes : Nat) :
    Option Ptr × rkArena × Backend :=
  match a.curr with
  | [] => (none, a, b)
  | currPage :: rest =>
    if (currPage.offset + numBytes) % W > currPage.size then
      match rkNewPage ok junk H b a.pageSize with
      | (none, b') => (none, a, b')
      | (some newPage, b') =>
        let r := rkAllocFromPage newPage numBytes
        (some r.1, ⟨a.selfId, a.pageSize, r.2 :: currPage :: rest⟩, b')
    else
      let r := rkAllocFromPage currPage numBytes
      (some r.1, ⟨a.selfId, a.pageSize, r.2 :: rest⟩, b)

/-- A client-visible store through a pointer: `region[idx] = v` on every page
whose backing region is `pid`.  (For a well-formed arena region ids are
unique, so at most one page is written.) -/
def writeByte (a : rkArena) (pid idx v : Nat) : rkArena :=
  ⟨a.selfId, a.pageSize, a.curr.map fun p =>
    if p.id = pid then
      ⟨p.id, fun j => if j = idx then v else p.mem j, p.offset, p.size⟩
    else p⟩

/-- The byte at index `idx` of the region `pid` among the pages `l`, `none`
when the index is outside the region. -/
def readByteL (l : List rkAllocPage) (pid idx : Nat) : Option Nat :=
  match l.find? (fun p => p.id == pid) with
  | none => none
  | some p => if idx < p.size then some (p.mem idx) else none

/-- A client-visible load through a pointer: the byte at index `idx` of the
region `pid`, `none` when the index is outside the region. -/
def readByte (a : rkArena) (pid idx : Nat) : Option Nat :=
  readByteL a.curr pid idx

/-- The zeroing loop of `rkArenaAllocZeroed` in arena_alloc.c:
`for (i = 0; i < numBytes; i++) bytes[i] = 0x00;`. -/
def zeroBytes (a : rkArena) (p : Ptr) (n : Nat) : rkArena :=
  (List.range n).foldl (fun acc i => writeByte acc p.page (p.off + i) 0) a

/-- `rkArenaAllocZeroed` (arena_alloc.c): allocate, then zero the returned
region with a byte loop. -/
def rkArenaAllocZeroed (b : Backend) (a : rkArena) (numBytes : Nat) :
    Option Ptr × rkArena × Backend :=
  match rkArenaAlloc ok junk H b a numBytes with
  | (none, a', b') => (none, a', b')
  | (some ptr, a', b') => (some ptr, zeroBytes a' ptr numBytes, b')

/-- The copy loop of `rkArenaRealloc`:
`for (i = 0; i < oldSize; i++) newBytes[i] = oldBytes[i];`.
Each iteration reads the current state (the loop interleaves loads and
stores).  An out-of-region load is undefined behavior in C; it is modelled as
a skipped iteration and is excluded by the hypotheses of every theorem that
mentions this function. -/
def copyBytes (a : rkArena) (src dst : Ptr) (n : Nat) : rkArena :=
  (List.range n).foldl (fun acc i =>
    match readByte acc src.page (src.off + i) with
    | none => acc
    | some v => writeByte acc dst.page (dst.off + i) v) a

/-- `rkArenaRealloc`: allocates `newSize` fresh bytes and copies the first
`oldSize` bytes of `ptr` into them. -/
def rkArenaRealloc (b : Backend) (a : rkArena) (ptr : Ptr)
    (oldSize newSize : Nat) : Option Ptr × rkArena × Backend :=
  match rkArenaAlloc ok junk H b a newSize with
  | (none, a', b') => (none, a', b')
  | (some newBytes, a', b') =>
    (some newBytes, copyBytes a' ptr newBytes oldSize, b')

/-- `memset(ptr, 0x00, numBytes)` as used by `rkArenaAllocZeroed` in
src/rkmemory/rkarena.h: every byte of the region `[p.off, p.off + n)` becomes
zero in one bulk step. -/
def memsetZero (a : rkArena) (p : Ptr) (n : Nat) : rkArena :=
  ⟨a.selfId, a.pageSize, a.curr.map fun pg =>
    if pg.id = p.page then
      ⟨pg.id, fun j => if p.off ≤ j ∧ j < p.off + n then 0 else pg.mem j,
       pg.offset, pg.size⟩
    else pg⟩

end RkArena

/-!
The header-only implementation in src/rkmemory/rkarena.h.  Its text is
identical to src/arena_alloc/arena_alloc.c except that `rkArenaAllocZeroed`
zeroes the returned region with `memset` instead of a byte loop.  It is
embedded separately so that behavioral equivalence (claim C10) is a theorem
about two definitions, each traceable to its own source file.
-/

namespace RkArenaHdr

open RkArena (Backend rkOsMalloc rkOsFree rkAllocPage rkArena Ptr W memsetZero)

variable (ok : Nat → Bool) (junk : Nat → Nat → Nat) (H A : Nat)

/-- `rkNewPage` of rkarena.h. -/
def rkNewPage (b : Backend) (size : Nat) : Option rkAllocPage × Backend :=
  match rkOsMalloc ok b ((H + size) % W) with
  | (none, b') => (none, b')
  | (some pid, b') => (some ⟨pid, junk pid, 0, size⟩, b')

/-- `rkNewArena` of rkarena.h. -/
def rkNewArena (b : Backend) (pageSize : Nat) : Option rkArena × Backend :=
  match rkOsMalloc ok b A with
  | (none, b') => (none, b')
  | (some aid, b') =>
    match rkNewPage ok junk H b' pageSize with
    | (none, b'') => (none, b'')
    | (some page, b'') => (some ⟨aid, pageSize, [page]⟩, b'')

/-- `rkCreateArena` of rkarena.h. -/
def rkCreateArena (b : Backend) : Option rkArena × Backend :=
  rkNewArena ok junk H A b (8 * 1024)

/-- `rkCreateArenaWithPageSize` of rkarena.h. -/
def rkCreateArenaWithPageSize (b : Backend) (pageSize : Nat) :
    Option rkArena × Backend :=
  rkNewArena ok junk H A b pageSize

/-- `rkFreeArena` of rkarena.h. -/
def rkFreeArena (b : Backend) (a : rkArena) : Backend :=
  rkOsFree
    (a.curr.foldl (fun acc p => rkOsFree acc p.id ((H + p.size) % W)) b)
    a.selfId A

/-- `rkResetArena` of rkarena.h. -/
def rkResetArena (a : rkArena) : rkArena :=
  ⟨a.selfId, a.pageSize, a.curr.map fun p => ⟨p.id, p.mem, 0, p.size⟩⟩

/-- `rkAllocFromPage` of rkarena.h. -/
def rkAllocFromPage (page : rkAllocPage) (numBytes : Nat) :
    Ptr × rkAllocPage :=
  (⟨page.id, page.offset⟩,
   ⟨page.id, page.mem, (page.offset + numBytes) % W, page.size⟩)

/-- `rkArenaAlloc` of rkarena.h. -/
def rkArenaAlloc (b : Backend) (a : rkArena) (numBytes : Nat) :
    Option Ptr × rkArena × Backend :=
  match a.curr with
  | [] => (none, a, b)
  | currPage :: rest =>
    if (currPage.offset + numBytes) % W > currPage.size then
      match rkNewPage ok junk H b a.pageSize with
      | (none, b') => (none, a, b')
      | (some newPage, b') =>
        let r := rkAllocFromPage newPage numBytes
        (some r.1, ⟨a.selfId, a.pageSize, r.2 :: currPage :: rest⟩, b')
    else
      let r := rkAllocFromPage currPage numBytes
      (some r.1, ⟨a.selfId, a.pageSize, r.2 :: rest⟩, b)

/-- `rkArenaAllocZeroed` of rkarena.h: allocate, then `memset` the returned
region to zero. -/
def rkArenaAllocZeroed (b : Backend) (a : rkArena) (numBytes : Nat) :
    Option Ptr × rkArena × Backend :=
  match rkArenaAlloc ok junk H b a numBytes with
  | (none, a', b') => (none, a', b')
  | (some ptr, a', b') => (some ptr, memsetZero a' ptr numBytes, b')

/-- `rkArenaRealloc` of rkarena.h. -/
def rkArenaRealloc (b : Backend) (a : rkArena) (ptr : Ptr)
    (oldSize newSize : Nat) : Option Ptr × rkArena × Backend :=
  match rkArenaAlloc ok junk H b a newSize with
  | (none, a', b') => (none, a', b')
  | (some newBytes, a', b') =>
    (some newBytes, RkArena.copyBytes a' ptr newBytes oldSize, b')

end RkArenaHdr

namespace RkArena

/-- The basic page invariant of the spec: `offset ≤ size` for every page. -/
def Inv (a : rkArena) : Prop := ∀ p ∈ a.curr, p.offset ≤ p.size

/-- Well-formedness of an arena with respect to the backend: every page
respects the bump invariant, has the arena's fixed capacity, and its backing
region id was handed out by the backend (hence is below the call counter);
region ids are pairwise distinct. -/
def WF (b : Backend) (a : rkArena) : Prop :=
  (∀ p ∈ a.curr, p.offset ≤ p.size) ∧
  (∀ p ∈ a.curr, p.size = a.pageSize) ∧
  (∀ p ∈ a.curr, p.id < b.calls) ∧
  (a.curr.map fun p => p.id).Nodup

/-- The region `r` (a pointer together with a byte count) has been handed out
by the arena `a`: it lies inside the already-bumped prefix of one of the
arena's pages. -/
def InState (a : rkArena) (r : Ptr × Nat) : Prop :=
  ∃ p ∈ a.curr, p.id = r.1.page ∧ r.1.off + r.2 ≤ p.offset

/-- Two regions do not overlap: they live in distinct backing regions, or
their offset intervals are disjoint. -/
def Disjoint2 (r1 r2 : Ptr × Nat) : Prop :=
  r1.1.page ≠ r2.1.page ∨ r1.1.off + r1.2 ≤ r2.1.off ∨
    r2.1.off + r2.2 ≤ r1.1.off

instance (r1 r2 : Ptr × Nat) : Decidable (Disjoint2 r1 r2) := by
  unfold Disjoint2; infer_instance

instance (a : rkArena) (r : Ptr × Nat) : Decidable (InState a r) := by
  unfold InState; infer_instance

instance (b : Backend) (a : rkArena) : Decidable (WF b a) := by
  unfold WF; infer_instance

instance (a : rkArena) : Decidable (Inv a) := by
  unfold Inv; infer_instance

variable (ok : Nat → Bool) (junk : Nat → Nat → Nat) (H A : Nat)

/-- Unfolding of `rkArenaAlloc` on a nonempty page chain: either the head
page overflows (`size_t` comparison) and a fresh page of capacity `pageSize`
serves the request (when the backend grants the mapping), or the head page
serves it at the pre-bump offset. -/
theorem alloc_cons (b : Backend) (sid ps n : Nat) (hd : rkAllocPage)
    (t : List rkAllocPage) :
    rkArenaAlloc ok junk H b ⟨sid, ps, hd :: t⟩ n =
      if (hd.offset + n) % W > hd.size then
        (if ok b.calls then
          (some ⟨b.calls, 0⟩,
           ⟨sid, ps, ⟨b.calls, junk b.calls, n % W, ps⟩ :: hd :: t⟩,
           ⟨b.calls + 1, b.acquired ++ [(b.calls, (H + ps) % W)], b.released⟩)
        else
          (none, ⟨sid, ps, hd :: t⟩, ⟨b.calls + 1, b.acquired, b.released⟩))
      else
        (some ⟨hd.id, hd.offset⟩,
         ⟨sid, ps, ⟨hd.id, hd.mem, (hd.offset + n) % W, hd.size⟩ :: t⟩, b) := by
  simp only [rkArenaAlloc, rkNewPage, rkOsMalloc, rkAllocFromPage]
  by_cases h1 : (hd.offset + n) % W > hd.size <;>
    by_cases h2 : ok b.calls <;>
      simp [h1, h2, Nat.zero_add]

/-- Reading from a cons chain: the head page answers when its region id
matches, otherwise the tail answers. -/
theorem readByteL_cons (x : rkAllocPage) (l : List rkAllocPage)
    (pid idx : Nat) :
    readByteL (x :: l) pid idx =
      if x.id = pid then (if idx < x.size then some (x.mem idx) else none)
      else readByteL l pid idx := by
  unfold readByteL
  by_cases h : x.id = pid
  · rw [List.find?_cons_of_pos _ (by simp [h])]
    simp [h]
  · rw [List.find?_cons_of_neg _ (by simp [h])]
    simp [h]

/-- A store at `(pid, idx)` does not change the byte read at any other
address. -/
theorem readByte_writeByte_other (a : rkArena) (pid idx v pid' idx' : Nat)
    (h : pid' ≠ pid ∨ idx' ≠ idx) :
    readByte (writeByte a pid idx v) pid' idx' = readByte a pid' idx' := by
  unfold readByte readByteL writeByte
  rw [List.find?_map]
  have hg : ((fun p : rkAllocPage => p.id == pid') ∘ fun p : rkAllocPage =>
      if p.id = pid then
        ⟨p.id, fun j => if j = idx then v else p.mem j, p.offset, p.size⟩
      else p) = fun p : rkAllocPage => p.id == pid' := by
    funext p; by_cases hp : p.id = pid <;> simp [hp]
  rw [hg]
  cases hf : a.curr.find? (fun p => p.id == pid') with
  | none => simp
  | some p =>
    have hpid' : p.id = pid' := by simpa using List.find?_some hf
    by_cases hp : p.id = pid
    · rcases h with hne | hne
      · exact absurd (hp ▸ hpid') (fun he => hne he.symm)
      · simp [hp, hne]
    · simp [hp]

/-- A store at `(pid, idx)` is read back, provided the address is inside the
region. -/
theorem readByte_writeByte_self (a : rkArena) (pid idx v : Nat)
    (h : (readByte a pid idx).isSome) :
    readByte (writeByte a pid idx v) pid idx = some v := by
  unfold readByte readByteL writeByte at *
  rw [List.find?_map]
  have hg : ((fun p : rkAllocPage => p.id == pid) ∘ fun p : rkAllocPage =>
      if p.id = pid then
        ⟨p.id, fun j => if j = idx then v else p.mem j, p.offset, p.size⟩
      else p) = fun p : rkAllocPage => p.id == pid := by
    funext p; by_cases hp : p.id = pid <;> simp [hp]
  rw [hg]
  cases hf : a.curr.find? (fun p => p.id == pid) with
  | none => rw [hf] at h; simp at h
  | some p =>
    rw [hf] at h
    have hpid : p.id = pid := by simpa using List.find?_some hf
    by_cases hlt : idx < p.size
    · simp [hpid, hlt]
    · simp [hlt] at h

/-- With pairwise distinct region ids, `find?` locates exactly the member
page with the sought id. -/
theorem find?_eq_of_nodup (l : List rkAllocPage)
    (hnd : (l.map fun p => p.id).Nodup) (p : rkAllocPage) (hp : p ∈ l) :
    l.find? (fun q => q.id == p.id) = some p := by
  induction l with
  | nil => cases hp
  | cons x xs ih =>
    simp only [List.map_cons, List.nodup_cons] at hnd
    rcases List.mem_cons.mp hp with rfl | hmem
    · exact List.find?_cons_of_pos _ (by simp)
    · have hx : ¬ x.id = p.id := by
        intro he
        exact hnd.1 (he ▸ List.mem_map_of_mem (fun q => q.id) hmem)
      rw [List.find?_cons_of_neg _ (by simp [hx])]
      exact ih hnd.2 hmem

/-- One `rkArenaAlloc` call on a well-formed arena whose capacity keeps the
`size_t` sums below `2 ^ 64`: well-formedness, the page capacity, the header
address and all previously handed out regions (and their bytes) are
preserved, the backend call counter is monotone, and a successful result is a
fresh region of `n` usable bytes disjoint from every previously handed out
region. -/
theorem allocStep (b : Backend) (a : rkArena) (n : Nat)
    (hwf : WF b a) (hps : 2 * a.pageSize < W) (hn : n ≤ a.pageSize) :
    ∀ res a' b', rkArenaAlloc ok junk H b a n = (res, a', b') →
      WF b' a' ∧ a'.pageSize = a.pageSize ∧ a'.selfId = a.selfId ∧
      b.calls ≤ b'.calls ∧
      (∀ r, InState a r → InState a' r) ∧
      (∀ pid idx, (∃ p ∈ a.curr, p.id = pid) →
        readByte a' pid idx = readByte a pid idx) ∧
      (∀ q, res = some q →
        InState a' (q, n) ∧ ∀ r, InState a r → Disjoint2 (q, n) r) := by
  obtain ⟨sid, ps, curr⟩ := a
  obtain ⟨hoff, hsz, hlt, hnd⟩ := hwf
  simp only at hoff hsz hlt hnd hps hn
  cases curr with
  | nil =>
    intro res a' b' heq
    rw [show rkArenaAlloc ok junk H b ⟨sid, ps, []⟩ n =
        (none, ⟨sid, ps, []⟩, b) from rfl] at heq
    injection heq with h1 h2
    injection h2 with h2 h3
    subst h1; subst h2; subst h3
    refine ⟨⟨hoff, hsz, hlt, hnd⟩, rfl, rfl, Nat.le_refl _, fun r hr => hr,
      fun pid idx _ => rfl, fun q hq => by cases hq⟩
  | cons hd t =>
    have hdmem : hd ∈ hd :: t := List.mem_cons_self hd t
    have hoffhd : hd.offset ≤ hd.size := hoff hd hdmem
    have hszhd : hd.size = ps := hsz hd hdmem
    have hmod : (hd.offset + n) % W = hd.offset + n :=
      Nat.mod_eq_of_lt (by omega)
    have hnW : n % W = n := Nat.mod_eq_of_lt (by omega)
    simp only [List.map_cons, List.nodup_cons] at hnd
    intro res a' b' heq
    rw [alloc_cons] at heq
    by_cases hb : (hd.offset + n) % W > hd.size
    · rw [if_pos hb] at heq
      by_cases hok : ok b.calls
      · -- a fresh page serves the request
        rw [if_pos hok] at heq
        injection heq with h1 h2
        injection h2 with h2 h3
        subst h1; subst h2; subst h3
        refine ⟨⟨?_, ?_, ?_, ?_⟩, rfl, rfl, Nat.le_succ _, ?_, ?_, ?_⟩
        · intro p hp
          rcases List.mem_cons.mp hp with rfl | hp'
          · simpa [hnW] using hn
          · exact hoff p hp'
        · intro p hp
          rcases List.mem_cons.mp hp with rfl | hp'
          · rfl
          · exact hsz p hp'
        · intro p hp
          rcases List.mem_cons.mp hp with rfl | hp'
          · exact Nat.lt_succ_self _
          · exact Nat.lt_succ_of_lt (hlt p hp')
        · refine List.nodup_cons.mpr ⟨?_, List.nodup_cons.mpr hnd⟩
          intro hmem
          rcases List.mem_map.mp hmem with ⟨p, hp, hpid⟩
          exact absurd (hpid ▸ hlt p hp) (Nat.lt_irrefl _)
        · rintro ⟨rp, rn⟩ ⟨p, hp, hpid, hle⟩
          exact ⟨p, List.mem_cons_of_mem _ hp, hpid, hle⟩
        · rintro pid idx ⟨p, hp, hpid⟩
          have hplt := hlt p hp
          have : ¬ (b.calls = pid) := by intro he; omega
          unfold readByte
          rw [readByteL_cons]
          simp [this]
        · rintro q hq
          injection hq with hq
          subst hq
          constructor
          · exact ⟨⟨b.calls, junk b.calls, n % W, ps⟩,
              List.mem_cons_self _ _, rfl, by simp [hnW]⟩
          · rintro ⟨rp, rn⟩ ⟨p, hp, hpid, hle⟩
            left
            dsimp only at hpid ⊢
            have hplt := hlt p hp
            intro he
            omega
      · -- backend refuses the fresh page: nothing changes but the counter
        rw [if_neg hok] at heq
        injection heq with h1 h2
        injection h2 with h2 h3
        subst h1; subst h2; subst h3
        refine ⟨⟨hoff, hsz, ?_, List.nodup_cons.mpr hnd⟩, rfl, rfl,
          Nat.le_succ _, fun r hr => hr, fun pid idx _ => rfl,
          fun q hq => by cases hq⟩
        exact fun p hp => Nat.lt_succ_of_lt (hlt p hp)
    · -- the head page serves the request at the pre-bump offset
      rw [if_neg hb] at heq
      rw [hmod] at heq hb
      have hble : hd.offset + n ≤ hd.size := Nat.le_of_not_lt hb
      injection heq with h1 h2
      injection h2 with h2 h3
      subst h1; subst h2; subst h3
      have huniq : ∀ p ∈ hd :: t, p.id = hd.id → p = hd := by
        intro p hp he
        rcases List.mem_cons.mp hp with rfl | hmem
        · rfl
        · exact absurd (he ▸ List.mem_map_of_mem (fun q => q.id) hmem) hnd.1
      refine ⟨⟨?_, ?_, ?_, ?_⟩, rfl, rfl, Nat.le_refl _, ?_, ?_, ?_⟩
      · intro p hp
        rcases List.mem_cons.mp hp with rfl | hp'
        · exact hble
        · exact hoff p (List.mem_cons_of_mem _ hp')
      · intro p hp
        rcases List.mem_cons.mp hp with rfl | hp'
        · exact hszhd
        · exact hsz p (List.mem_cons_of_mem _ hp')
      · intro p hp
        rcases List.mem_cons.mp hp with rfl | hp'
        · exact hlt hd hdmem
        · exact hlt p (List.mem_cons_of_mem _ hp')
      · exact List.nodup_cons.mpr hnd
      · rintro ⟨rp, rn⟩ ⟨p, hp, hpid, hle⟩
        rcases List.mem_cons.mp hp with rfl | hmem
        · exact ⟨⟨p.id, p.mem, p.offset + n, p.size⟩, List.mem_cons_self _ _,
            hpid, Nat.le_trans hle (Nat.le_add_right _ _)⟩
        · exact ⟨p, List.mem_cons_of_mem _ hmem, hpid, hle⟩
      · rintro pid idx -
        unfold readByte
        rw [readByteL_cons, readByteL_cons]
      · rintro q hq
        injection hq with hq
        subst hq
        constructor
        · exact ⟨⟨hd.id, hd.mem, hd.offset + n, hd.size⟩,
            List.mem_cons_self _ _, rfl, Nat.le_refl _⟩
        · rintro ⟨rp, rn⟩ ⟨p, hp, hpid, hle⟩
          by_cases hpg : hd.id = rp.page
          · right; right
            have : p = hd := huniq p hp (hpid.trans hpg.symm)
            subst this
            simpa using hle
          · exact Or.inl hpg

/-- Region disjointness is symmetric. -/
theorem Disjoint2.symm {r1 r2 : Ptr × Nat} (h : Disjoint2 r1 r2) :
    Disjoint2 r2 r1 := by
  rcases h with h | h | h
  · exact Or.inl (fun he => h he.symm)
  · exact Or.inr (Or.inr h)
  · exact Or.inr (Or.inl h)

/-- A sequence of `rkArenaAlloc` calls (no intervening reset), returning the
list of results together with the final arena and backend states. -/
def runAllocs (b : Backend) (a : rkArena) :
    List Nat → List (Option Ptr) × rkArena × Backend
  | [] => ([], a, b)
  | n :: ns =>
    let s := rkArenaAlloc ok junk H b a n
    let rest := runAllocs s.2.2 s.2.1 ns
    (s.1 :: rest.1, rest.2)

/-- The successfully returned regions of an allocation sequence, each paired
with its requested length. -/
def regionsOf (res : List (Option Ptr)) (ns : List Nat) : List (Ptr × Nat) :=
  (res.zip ns).filterMap fun rn => rn.1.map fun p => (p, rn.2)

theorem regionsOf_nil (ns : List Nat) : regionsOf [] ns = [] := rfl

/-- The region contributed by a single allocation result. -/
def optRegion (r : Option Ptr) (n : Nat) : List (Ptr × Nat) :=
  match r with | none => [] | some q => [(q, n)]

theorem regionsOf_cons (r : Option Ptr) (res : List (Option Ptr)) (n : Nat)
    (ns : List Nat) :
    regionsOf (r :: res) (n :: ns) = optRegion r n ++ regionsOf res ns := by
  cases r <;> simp [regionsOf, optRegion]

/-- Invariant carried along a sequence of allocations: starting from a
well-formed state whose handed-out regions `S` are pairwise disjoint, every
request of at most the page capacity keeps the state well-formed and extends
`S` by pairwise disjoint, in-state regions. -/
theorem runAllocsGood (ns : List Nat) :
    ∀ b a (S : List (Ptr × Nat)), WF b a → 2 * a.pageSize < W →
      (∀ n ∈ ns, n ≤ a.pageSize) →
      (∀ r ∈ S, InState a r) → List.Pairwise Disjoint2 S →
      ∀ res a' b', runAllocs ok junk H b a ns = (res, a', b') →
        WF b' a' ∧ a'.pageSize = a.pageSize ∧ a'.selfId = a.selfId ∧
        (∀ r ∈ S ++ regionsOf res ns, InState a' r) ∧
        List.Pairwise Disjoint2 (S ++ regionsOf res ns) := by
  induction ns with
  | nil =>
    intro b a S hwf hps _ hS hpw res a' b' heq
    injection heq with h1 h2
    injection h2 with h2 h3
    subst h1; subst h2; subst h3
    refine ⟨hwf, rfl, rfl, ?_, ?_⟩
    · simpa [regionsOf] using hS
    · simpa [regionsOf] using hpw
  | cons n ns ih =>
    intro b a S hwf hps hns hS hpw res a' b' heq
    rcases hstep : rkArenaAlloc ok junk H b a n with ⟨r, a1, b1⟩
    obtain ⟨hwf1, hps1, hsid1, _, hmono, _, hsucc⟩ :=
      allocStep ok junk H b a n hwf hps (hns n (List.mem_cons_self n ns))
        r a1 b1 hstep
    rcases hrest : runAllocs ok junk H b1 a1 ns with ⟨rs, a2, b2⟩
    have heq' : (r :: rs, a2, b2) = (res, a', b') := by
      rw [← heq]
      show _ = (_ :: (runAllocs ok junk H
          (rkArenaAlloc ok junk H b a n).2.2
          (rkArenaAlloc ok junk H b a n).2.1 ns).1, _)
      rw [hstep]
      simp [hrest]
    injection heq' with h1 h2
    injection h2 with h2 h3
    subst h1; subst h2; subst h3
    set S1 : List (Ptr × Nat) := S ++ optRegion r n with hS1
    have hS1in : ∀ reg ∈ S1, InState a1 reg := by
      intro reg hreg
      rcases List.mem_append.mp hreg with hreg | hreg
      · exact hmono reg (hS reg hreg)
      · cases r with
        | none => cases hreg
        | some q =>
          rcases List.mem_singleton.mp hreg with rfl
          exact (hsucc q rfl).1
    have hS1pw : List.Pairwise Disjoint2 S1 := by
      rw [hS1, List.pairwise_append]
      refine ⟨hpw, ?_, ?_⟩
      · cases r <;> simp [optRegion]
      · intro s hs t ht
        cases r with
        | none => cases ht
        | some q =>
          rcases List.mem_singleton.mp ht with rfl
          exact ((hsucc q rfl).2 s (hS s hs)).symm
    have hns1 : ∀ m ∈ ns, m ≤ a1.pageSize := by
      rw [hps1]; exact fun m hm => hns m (List.mem_cons_of_mem _ hm)
    obtain ⟨hwf2, hps2, hsid2, hin2, hpw2⟩ :=
      ih b1 a1 S1 hwf1 (hps1 ▸ hps) hns1 hS1in hS1pw rs a2 b2 hrest
    refine ⟨hwf2, hps2.trans hps1, hsid2.trans hsid1, ?_, ?_⟩
    · intro reg hreg
      apply hin2
      rw [regionsOf_cons] at hreg
      rw [hS1]
      simpa [List.append_assoc] using hreg
    · rw [regionsOf_cons, ← List.append_assoc]
      rw [hS1] at hpw2
      simpa [List.append_assoc] using hpw2

/-- The zeroing loop writes zero into every byte of the region and nothing
else. -/
theorem zeroBytes_spec (p : Ptr) :
    ∀ (n : Nat) (a : rkArena),
      (∀ i, i < n → (readByte a p.page (p.off + i)).isSome) →
      (∀ i, i < n → readByte (zeroBytes a p n) p.page (p.off + i) = some 0) ∧
      (∀ pid idx, (pid ≠ p.page ∨ idx < p.off ∨ p.off + n ≤ idx) →
        readByte (zeroBytes a p n) pid idx = readByte a pid idx) := by
  intro n
  induction n with
  | zero =>
    intro a _
    exact ⟨fun i hi => absurd hi (Nat.not_lt_zero i), fun pid idx _ => rfl⟩
  | succ m ih =>
    intro a hv
    have hz : zeroBytes a p (m + 1) =
        writeByte (zeroBytes a p m) p.page (p.off + m) 0 := by
      unfold zeroBytes
      rw [List.range_succ, List.foldl_append]
      rfl
    obtain ⟨ih1, ih2⟩ := ih a (fun i hi => hv i (Nat.lt_succ_of_lt hi))
    have hvm : (readByte (zeroBytes a p m) p.page (p.off + m)).isSome := by
      rw [ih2 p.page (p.off + m) (Or.inr (Or.inr (Nat.le_refl _)))]
      exact hv m (Nat.lt_succ_self m)
    constructor
    · intro i hi
      rw [hz]
      rcases (show i < m ∨ i = m by omega) with hi' | rfl
      · rw [readByte_writeByte_other _ _ _ _ _ _ (Or.inr (by omega))]
        exact ih1 i hi'
      · exact readByte_writeByte_self _ _ _ _ hvm
    · intro pid idx h
      rw [hz, readByte_writeByte_other _ _ _ _ _ _ (by omega),
        ih2 pid idx (by omega)]

/-- The copy loop of `rkArenaRealloc` copies the source bytes into the
destination region and changes nothing else, provided source and destination
regions are disjoint and both are in bounds. -/
theorem copyBytes_spec (src dst : Ptr) :
    ∀ n : Nat,
      (src.page ≠ dst.page ∨ src.off + n ≤ dst.off ∨ dst.off + n ≤ src.off) →
      ∀ a : rkArena,
        (∀ i, i < n → (readByte a src.page (src.off + i)).isSome) →
        (∀ i, i < n → (readByte a dst.page (dst.off + i)).isSome) →
        (∀ i, i < n → readByte (copyBytes a src dst n) dst.page (dst.off + i)
            = readByte a src.page (src.off + i)) ∧
        (∀ pid idx, (pid ≠ dst.page ∨ idx < dst.off ∨ dst.off + n ≤ idx) →
          readByte (copyBytes a src dst n) pid idx = readByte a pid idx) := by
  intro n
  induction n with
  | zero =>
    intro _ a _ _
    exact ⟨fun i hi => absurd hi (Nat.not_lt_zero i), fun pid idx _ => rfl⟩
  | succ m ih =>
    intro hdisj a hsrc hdst
    have hdisj' : src.page ≠ dst.page ∨ src.off + m ≤ dst.off ∨
        dst.off + m ≤ src.off := by
      rcases hdisj with h | h | h
      · exact Or.inl h
      · exact Or.inr (Or.inl (by omega))
      · exact Or.inr (Or.inr (by omega))
    obtain ⟨ih1, ih2⟩ := ih hdisj' a
      (fun i hi => hsrc i (Nat.lt_succ_of_lt hi))
      (fun i hi => hdst i (Nat.lt_succ_of_lt hi))
    have hsm : readByte (copyBytes a src dst m) src.page (src.off + m)
        = readByte a src.page (src.off + m) := by
      apply ih2
      rcases hdisj with h | h | h
      · exact Or.inl h
      · exact Or.inr (Or.inl (by omega))
      · exact Or.inr (Or.inr (by omega))
    rcases hv : readByte a src.page (src.off + m) with _ | v
    · exact absurd (hv ▸ hsrc m (Nat.lt_succ_self m)) (by simp)
    have hstep : copyBytes a src dst (m + 1) =
        writeByte (copyBytes a src dst m) dst.page (dst.off + m) v := by
      unfold copyBytes
      rw [List.range_succ, List.foldl_append]
      show (match readByte ((List.range m).foldl _ a) src.page (src.off + m)
          with
        | none => (List.range m).foldl _ a
        | some w =>
            writeByte ((List.range m).foldl _ a) dst.page (dst.off + m) w) = _
      rw [show readByte ((List.range m).foldl (fun acc i =>
          match readByte acc src.page (src.off + i) with
          | none => acc
          | some w => writeByte acc dst.page (dst.off + i) w) a)
            src.page (src.off + m) = some v from hsm.trans hv]
    have hdm : (readByte (copyBytes a src dst m) dst.page
        (dst.off + m)).isSome := by
      rw [ih2 dst.page (dst.off + m) (Or.inr (Or.inr (Nat.le_refl _)))]
      exact hdst m (Nat.lt_succ_self m)
    constructor
    · intro i hi
      rw [hstep]
      rcases (show i < m ∨ i = m by omega) with hi' | rfl
      · rw [readByte_writeByte_other _ _ _ _ _ _ (Or.inr (by omega))]
        exact ih1 i hi'
      · rw [readByte_writeByte_self _ _ _ _ hdm, hv]
    · intro pid idx h
      rw [hstep, readByte_writeByte_other _ _ _ _ _ _ (by omega),
        ih2 pid idx (by omega)]

/-- Two pages agreeing on all fields, with extensionally equal contents, are
equal. -/
theorem page_mk_eq (pid off sz : Nat) (m1 m2 : Nat → Nat) (h : m1 = m2) :
    (⟨pid, m1, off, sz⟩ : rkAllocPage) = ⟨pid, m2, off, sz⟩ := by
  rw [h]

/-- The byte-loop zeroing of arena_alloc.c and the `memset` zeroing of
rkarena.h produce the same arena. -/
theorem zeroBytes_eq_memsetZero (p : Ptr) :
    ∀ (n : Nat) (a : rkArena), zeroBytes a p n = memsetZero a p n := by
  intro n
  induction n with
  | zero =>
    intro a
    show a = memsetZero a p 0
    obtain ⟨sid, ps, curr⟩ := a
    unfold memsetZero
    simp only [rkArena.mk.injEq, true_and]
    have hpt : ∀ pg ∈ curr, (if pg.id = p.page then
        (⟨pg.id, fun j => if p.off ≤ j ∧ j < p.off + 0 then 0 else pg.mem j,
          pg.offset, pg.size⟩ : rkAllocPage)
      else pg) = pg := by
      intro pg _
      by_cases h : pg.id = p.page
      · rw [if_pos h]
        exact (page_mk_eq pg.id pg.offset pg.size _ pg.mem
          (by funext j; rw [if_neg (by omega)])).trans rfl
      · rw [if_neg h]
    calc curr = List.map (fun pg => pg) curr := by
          rw [List.map_id']
      _ = _ := (List.map_congr_left hpt).symm
  | succ m ih =>
    intro a
    have hz : zeroBytes a p (m + 1) =
        writeByte (zeroBytes a p m) p.page (p.off + m) 0 := by
      unfold zeroBytes
      rw [List.range_succ, List.foldl_append]
      rfl
    rw [hz, ih a]
    obtain ⟨sid, ps, curr⟩ := a
    unfold memsetZero writeByte
    simp only [rkArena.mk.injEq, true_and, List.map_map]
    apply List.map_congr_left
    intro pg _
    simp only [Function.comp_apply]
    by_cases h : pg.id = p.page
    · rw [if_pos h]
      dsimp only
      rw [if_pos h, if_pos h]
      apply page_mk_eq
      funext j
      by_cases h1 : j = p.off + m
      · rw [if_pos h1, if_pos (by omega)]
      · rw [if_neg h1]
        by_cases h2 : p.off ≤ j ∧ j < p.off + m
        · rw [if_pos h2, if_pos (by omega)]
        · rw [if_neg h2, if_neg (by omega)]
    · rw [if_neg h]
      rw [if_neg h, if_neg h]

/-- The acquisition record of each page of the arena: its region id together
with the byte count `sizeof(rkAllocPage) + sizeof(uint8_t) * size` (as a
`size_t` value) that was requested for it — the same expression `rkFreeArena`
later passes to `rkOsFree`. -/
def pageAcqs (a : rkArena) : List (Nat × Nat) :=
  a.curr.map fun p => (p.id, (H + p.size) % W)

/-- The bookkeeping invariant tying a live arena to the counting backend:
the acquisitions are exactly the arena header followed by every page of the
chain (oldest first), and nothing has been released yet. -/
def AcqInv (b : Backend) (a : rkArena) : Prop :=
  b.acquired = (a.selfId, A) :: (pageAcqs H a).reverse ∧ b.released = []

theorem pageAcqs_writeByte (a : rkArena) (pid idx v : Nat) :
    pageAcqs H (writeByte a pid idx v) = pageAcqs H a ∧
      (writeByte a pid idx v).selfId = a.selfId := by
  refine ⟨?_, rfl⟩
  unfold pageAcqs writeByte
  simp only [List.map_map]
  apply List.map_congr_left
  intro pg _
  simp only [Function.comp_apply]
  by_cases h : pg.id = pid
  · rw [if_pos h]
  · rw [if_neg h]

theorem pageAcqs_memsetZero (a : rkArena) (p : Ptr) (n : Nat) :
    pageAcqs H (memsetZero a p n) = pageAcqs H a ∧
      (memsetZero a p n).selfId = a.selfId := by
  refine ⟨?_, rfl⟩
  unfold pageAcqs memsetZero
  simp only [List.map_map]
  apply List.map_congr_left
  intro pg _
  simp only [Function.comp_apply]
  by_cases h : pg.id = p.page
  · rw [if_pos h]
  · rw [if_neg h]

theorem pageAcqs_copyBytes (src dst : Ptr) (n : Nat) :
    ∀ a : rkArena, pageAcqs H (copyBytes a src dst n) = pageAcqs H a ∧
      (copyBytes a src dst n).selfId = a.selfId := by
  unfold copyBytes
  generalize List.range n = l
  induction l with
  | nil => exact fun a => ⟨rfl, rfl⟩
  | cons i l ih =>
    intro a
    rw [List.foldl_cons]
    rcases hr : readByte a src.page (src.off + i) with _ | v
    · exact ih a
    · obtain ⟨ih1, ih2⟩ := ih (writeByte a dst.page (dst.off + i) v)
      exact ⟨ih1.trans (pageAcqs_writeByte H a _ _ _).1,
        ih2.trans (pageAcqs_writeByte H a _ _ _).2⟩

theorem pageAcqs_reset (a : rkArena) :
    pageAcqs H (rkResetArena a) = pageAcqs H a ∧
      (rkResetArena a).selfId = a.selfId := by
  refine ⟨?_, rfl⟩
  unfold pageAcqs rkResetArena
  simp [List.map_map, Function.comp]

/-- `rkArenaAlloc` preserves the bookkeeping invariant: a fresh page is
recorded in both the chain and the acquisition log, with the same byte count
`rkFreeArena` will release it with. -/
theorem allocAcq (b : Backend) (a : rkArena) (n : Nat)
    (hAI : AcqInv H A b a) :
    ∀ res a' b', rkArenaAlloc ok junk H b a n = (res, a', b') →
      AcqInv H A b' a' := by
  obtain ⟨hacq, hrel⟩ := hAI
  obtain ⟨sid, ps, curr⟩ := a
  cases curr with
  | nil =>
    intro res a' b' heq
    rw [show rkArenaAlloc ok junk H b ⟨sid, ps, []⟩ n =
        (none, ⟨sid, ps, []⟩, b) from rfl] at heq
    injection heq with h1 h2
    injection h2 with h2 h3
    subst h2; subst h3
    exact ⟨hacq, hrel⟩
  | cons hd t =>
    intro res a' b' heq
    rw [alloc_cons] at heq
    by_cases hb : (hd.offset + n) % W > hd.size
    · rw [if_pos hb] at heq
      by_cases hok : ok b.calls
      · rw [if_pos hok] at heq
        injection heq with h1 h2
        injection h2 with h2 h3
        subst h2; subst h3
        constructor
        · simp only [pageAcqs, List.map_cons, List.reverse_cons] at hacq ⊢
          rw [hacq]
          simp [List.append_assoc]
        · simpa using hrel
      · rw [if_neg hok] at heq
        injection heq with h1 h2
        injection h2 with h2 h3
        subst h2; subst h3
        exact ⟨hacq, hrel⟩
    · rw [if_neg hb] at heq
      injection heq with h1 h2
      injection h2 with h2 h3
      subst h2; subst h3
      refine ⟨?_, hrel⟩
      simpa only [pageAcqs, List.map_cons] using hacq

/-- A single client operation on a live arena (the argument of every call is
unconstrained). -/
inductive Op where
  | alloc (n : Nat)
  | allocZeroed (n : Nat)
  | realloc (p : Ptr) (oldSize newSize : Nat)
  | reset

/-- The state transformation of one operation (the returned pointer, if any,
is dropped). -/
def runOp (b : Backend) (a : rkArena) : Op → rkArena × Backend
  | Op.alloc n =>
    ((rkArenaAlloc ok junk H b a n).2.1, (rkArenaAlloc ok junk H b a n).2.2)
  | Op.allocZeroed n =>
    ((rkArenaAllocZeroed ok junk H b a n).2.1,
     (rkArenaAllocZeroed ok junk H b a n).2.2)
  | Op.realloc p o n =>
    ((rkArenaRealloc ok junk H b a p o n).2.1,
     (rkArenaRealloc ok junk H b a p o n).2.2)
  | Op.reset => (rkResetArena a, b)

/-- Running a list of operations left to right. -/
def runOps (b : Backend) (a : rkArena) : List Op → rkArena × Backend
  | [] => (a, b)
  | op :: ops =>
    runOps (runOp ok junk H b a op).2 (runOp ok junk H b a op).1 ops

theorem runOpAcq (b : Backend) (a : rkArena) (op : Op)
    (hAI : AcqInv H A b a) :
    AcqInv H A (runOp ok junk H b a op).2 (runOp ok junk H b a op).1 := by
  cases op with
  | alloc n =>
    exact allocAcq ok junk H A b a n hAI _ _ _ rfl
  | allocZeroed n =>
    show AcqInv H A (rkArenaAllocZeroed ok junk H b a n).2.2
      (rkArenaAllocZeroed ok junk H b a n).2.1
    rcases hstep : rkArenaAlloc ok junk H b a n with ⟨r, a1, b1⟩
    have h1 := allocAcq ok junk H A b a n hAI r a1 b1 hstep
    cases r with
    | none =>
      simp only [rkArenaAllocZeroed, hstep]
      exact h1
    | some q =>
      simp only [rkArenaAllocZeroed, hstep]
      obtain ⟨ha, hr⟩ := h1
      refine ⟨?_, hr⟩
      rw [ha]
      rw [zeroBytes_eq_memsetZero]
      rw [(pageAcqs_memsetZero H a1 q n).1, (pageAcqs_memsetZero H a1 q n).2]
  | realloc p o n2 =>
    show AcqInv H A (rkArenaRealloc ok junk H b a p o n2).2.2
      (rkArenaRealloc ok junk H b a p o n2).2.1
    rcases hstep : rkArenaAlloc ok junk H b a n2 with ⟨r, a1, b1⟩
    have h1 := allocAcq ok junk H A b a n2 hAI r a1 b1 hstep
    cases r with
    | none =>
      simp only [rkArenaRealloc, hstep]
      exact h1
    | some q =>
      simp only [rkArenaRealloc, hstep]
      obtain ⟨ha, hr⟩ := h1
      refine ⟨?_, hr⟩
      rw [ha]
      rw [(pageAcqs_copyBytes H p q o a1).1, (pageAcqs_copyBytes H p q o a1).2]
  | reset =>
    obtain ⟨ha, hr⟩ := hAI
    show AcqInv H A b (rkResetArena a)
    refine ⟨?_, hr⟩
    rw [(pageAcqs_reset H a).1, (pageAcqs_reset H a).2]
    exact ha

theorem runOpsAcq (ops : List Op) :
    ∀ b a, AcqInv H A b a →
      AcqInv H A (runOps ok junk H b a ops).2 (runOps ok junk H b a ops).1 := by
  induction ops with
  | nil => exact fun b a h => h
  | cons op ops ih =>
    intro b a h
    exact ih _ _ (runOpAcq ok junk H A b a op h)

theorem foldl_osFree (l : List rkAllocPage) :
    ∀ b : Backend,
      l.foldl (fun acc p => rkOsFree acc p.id ((H + p.size) % W)) b =
        ⟨b.calls, b.acquired,
         b.released ++ l.map fun p => (p.id, (H + p.size) % W)⟩ := by
  induction l with
  | nil =>
    intro b
    obtain ⟨c, aq, rl⟩ := b
    simp
  | cons p l ih =>
    intro b
    rw [List.foldl_cons, ih]
    simp [rkOsFree, List.append_assoc]

/-- `rkFreeArena` releases every page of the chain (with the byte count of
its acquisition) and then the arena header; it acquires nothing. -/
theorem freeArena_released (b : Backend) (a : rkArena) :
    rkFreeArena H A b a =
      ⟨b.calls, b.acquired,
       b.released ++ pageAcqs H a ++ [(a.selfId, A)]⟩ := by
  unfold rkFreeArena
  rw [foldl_osFree]
  simp [rkOsFree, pageAcqs, List.append_assoc]

/-- The whole lifetime of an arena: creation from a pristine backend followed
by an arbitrary sequence of client operations; `none` when creation fails. -/
def lifeRun (ps : Nat) (ops : List Op) : Option (rkArena × Backend) :=
  match rkNewArena ok junk H A ⟨0, [], []⟩ ps with
  | (none, _) => none
  | (some a0, b1) => some (runOps ok junk H b1 a0 ops)

/-- Inversion of a successful `rkNewArena`: both backend calls succeeded, the
arena consists of the header region and one fresh page of the requested
capacity, and the backend recorded exactly these two acquisitions. -/
theorem newArena_inv (b : Backend) (ps : Nat) (a0 : rkArena) (b1 : Backend) :
    rkNewArena ok junk H A b ps = (some a0, b1) →
      ok b.calls = true ∧ ok (b.calls + 1) = true ∧
      a0 = ⟨b.calls, ps, [⟨b.calls + 1, junk (b.calls + 1), 0, ps⟩]⟩ ∧
      b1 = ⟨b.calls + 2,
            b.acquired ++ [(b.calls, A), (b.calls + 1, (H + ps) % W)],
            b.released⟩ := by
  intro heq
  unfold rkNewArena rkNewPage rkOsMalloc at heq
  by_cases h1 : ok b.calls
  · by_cases h2 : ok (b.calls + 1)
    · simp only [h1, h2, eq_self_iff_true, if_true] at heq
      injection heq with ha hb
      injection ha with ha
      refine ⟨h1, h2, ha.symm, ?_⟩
      rw [← hb]
      simp [List.append_assoc]
    · simp only [h1, h2, eq_self_iff_true, if_true, if_false] at heq
      simp at heq
  · simp only [h1, if_false] at heq
    simp at heq

/-- A failed `rkArenaAlloc` leaves the arena untouched and acquires and
releases nothing. -/
theorem alloc_none (b : Backend) (a : rkArena) (n : Nat) :
    ∀ a' b', rkArenaAlloc ok junk H b a n = (none, a', b') →
      a' = a ∧ b'.acquired = b.acquired ∧ b'.released = b.released := by
  obtain ⟨sid, ps, curr⟩ := a
  cases curr with
  | nil =>
    intro a' b' heq
    rw [show rkArenaAlloc ok junk H b ⟨sid, ps, []⟩ n =
        (none, ⟨sid, ps, []⟩, b) from rfl] at heq
    injection heq with h1 h2
    injection h2 with h2 h3
    subst h2; subst h3
    exact ⟨rfl, rfl, rfl⟩
  | cons hd t =>
    intro a' b' heq
    rw [alloc_cons] at heq
    by_cases hb : (hd.offset + n) % W > hd.size
    · rw [if_pos hb] at heq
      by_cases hok : ok b.calls
      · rw [if_pos hok] at heq
        injection heq with h1 h2
        cases h1
      · rw [if_neg hok] at heq
        injection heq with h1 h2
        injection h2 with h2 h3
        subst h2; subst h3
        exact ⟨rfl, rfl, rfl⟩
    · rw [if_neg hb] at heq
      injection heq with h1 h2
      cases h1

/-- Every byte of a handed-out region can be read in a well-formed arena. -/
theorem readByte_isSome_of_inState (b : Backend) (a : rkArena)
    (hwf : WF b a) (r : Ptr × Nat) (hr : InState a r) :
    ∀ i, i < r.2 → (readByte a r.1.page (r.1.off + i)).isSome := by
  obtain ⟨p, hp, hpid, hle⟩ := hr
  obtain ⟨hoff, _, _, hnd⟩ := hwf
  intro i hi
  unfold readByte readByteL
  rw [← hpid, find?_eq_of_nodup a.curr hnd p hp]
  have hlt : r.1.off + i < p.size := by
    have := hoff p hp
    omega
  simp [hlt]

/-- One allocation either keeps the region-id chain or prepends one fresh
id. -/
theorem alloc_ids (b : Backend) (a : rkArena) (n : Nat) :
    ∀ res a' b', rkArenaAlloc ok junk H b a n = (res, a', b') →
      ∃ l, a'.curr.map (fun p => p.id) = l ++ a.curr.map (fun p => p.id) := by
  obtain ⟨sid, ps, curr⟩ := a
  cases curr with
  | nil =>
    intro res a' b' heq
    rw [show rkArenaAlloc ok junk H b ⟨sid, ps, []⟩ n =
        (none, ⟨sid, ps, []⟩, b) from rfl] at heq
    injection heq with h1 h2
    injection h2 with h2 h3
    subst h2
    exact ⟨[], rfl⟩
  | cons hd t =>
    intro res a' b' heq
    rw [alloc_cons] at heq
    by_cases hb : (hd.offset + n) % W > hd.size
    · rw [if_pos hb] at heq
      by_cases hok : ok b.calls
      · rw [if_pos hok] at heq
        injection heq with h1 h2
        injection h2 with h2 h3
        subst h2
        exact ⟨[b.calls], rfl⟩
      · rw [if_neg hok] at heq
        injection heq with h1 h2
        injection h2 with h2 h3
        subst h2
        exact ⟨[], rfl⟩
    · rw [if_neg hb] at heq
      injection heq with h1 h2
      injection h2 with h2 h3
      subst h2
      exact ⟨[], rfl⟩

/-- Along a sequence of allocations the old region-id chain survives as a
suffix. -/
theorem runAllocs_ids (ns : List Nat) :
    ∀ b a res a' b', runAllocs ok junk H b a ns = (res, a', b') →
      ∃ l, a'.curr.map (fun p => p.id) = l ++ a.curr.map (fun p => p.id) := by
  induction ns with
  | nil =>
    intro b a res a' b' heq
    injection heq with h1 h2
    injection h2 with h2 h3
    subst h2
    exact ⟨[], rfl⟩
  | cons n ns ih =>
    intro b a res a' b' heq
    rcases hstep : rkArenaAlloc ok junk H b a n with ⟨r, a1, b1⟩
    rcases hrest : runAllocs ok junk H b1 a1 ns with ⟨rs, a2, b2⟩
    have heq' : (r :: rs, a2, b2) = (res, a', b') := by
      rw [← heq]
      show _ = (_ :: (runAllocs ok junk H
          (rkArenaAlloc ok junk H b a n).2.2
          (rkArenaAlloc ok junk H b a n).2.1 ns).1, _)
      rw [hstep]
      simp [hrest]
    injection heq' with h1 h2
    injection h2 with h2 h3
    subst h2
    obtain ⟨l1, hl1⟩ := alloc_ids ok junk H b ⟨a.selfId, a.pageSize, a.curr⟩ n
      r a1 b1 (by rw [← hstep])
    obtain ⟨l2, hl2⟩ := ih b1 a1 rs a2 b2 hrest
    exact ⟨l2 ++ l1, by rw [hl2, hl1, List.append_assoc]⟩

/-- A successfully created arena is well-formed. -/
theorem newArena_wf (b : Backend) (ps : Nat) (a0 : rkArena) (b1 : Backend)
    (h : rkNewArena ok junk H A b ps = (some a0, b1)) : WF b1 a0 := by
  obtain ⟨-, -, ha, hb⟩ := newArena_inv ok junk H A b ps a0 b1 h
  subst ha; subst hb
  refine ⟨?_, ?_, ?_, ?_⟩
  · intro p hp
    rcases List.mem_singleton.mp hp with rfl
    exact Nat.zero_le _
  · intro p hp
    rcases List.mem_singleton.mp hp with rfl
    rfl
  · intro p hp
    rcases List.mem_singleton.mp hp with rfl
    exact Nat.lt_succ_self _
  · simp

/-- `rkArenaAlloc` preserves `offset ≤ size` for every page, given a request
of at most the page capacity (no wrap hypothesis needed: the bump branch is
self-limiting and the fresh-page branch stores `n % W ≤ n`). -/
theorem allocInv (b : Backend) (a : rkArena) (n : Nat)
    (hinv : Inv a) (hn : n ≤ a.pageSize) :
    Inv (rkArenaAlloc ok junk H b a n).2.1 := by
  obtain ⟨sid, ps, curr⟩ := a
  cases curr with
  | nil => exact hinv
  | cons hd t =>
    rw [alloc_cons]
    by_cases hb : (hd.offset + n) % W > hd.size
    · rw [if_pos hb]
      by_cases hok : ok b.calls
      · rw [if_pos hok]
        intro p hp
        simp only at hp
        rcases List.mem_cons.mp hp with rfl | hp'
        · show n % W ≤ ps
          exact Nat.le_trans (Nat.mod_le n W) (by simpa using hn)
        · exact hinv p hp'
      · rw [if_neg hok]
        exact hinv
    · rw [if_neg hb]
      intro p hp
      simp only at hp
      rcases List.mem_cons.mp hp with rfl | hp'
      · exact Nat.le_of_not_lt hb
      · exact hinv p (List.mem_cons_of_mem _ hp')

/-- `memsetZero` changes only page contents, hence preserves the bump
invariant. -/
theorem Inv_memsetZero (a : rkArena) (p : Ptr) (n : Nat) (h : Inv a) :
    Inv (memsetZero a p n) := by
  intro q hq
  unfold memsetZero at hq
  simp only at hq
  rcases List.mem_map.mp hq with ⟨pg, hpg, heq⟩
  by_cases hid : pg.id = p.page
  · rw [if_pos hid] at heq
    rw [← heq]
    exact h pg hpg
  · rw [if_neg hid] at heq
    rw [← heq]
    exact h pg hpg

/-- `writeByte` changes only page contents, hence preserves the bump
invariant. -/
theorem Inv_writeByte (a : rkArena) (pid idx v : Nat) (h : Inv a) :
    Inv (writeByte a pid idx v) := by
  intro q hq
  unfold writeByte at hq
  simp only at hq
  rcases List.mem_map.mp hq with ⟨pg, hpg, heq⟩
  by_cases hid : pg.id = pid
  · rw [if_pos hid] at heq
    rw [← heq]
    exact h pg hpg
  · rw [if_neg hid] at heq
    rw [← heq]
    exact h pg hpg

/-- The realloc copy loop changes only page contents, hence preserves the
bump invariant. -/
theorem Inv_copyBytes (src dst : Ptr) (n : Nat) :
    ∀ a : rkArena, Inv a → Inv (copyBytes a src dst n) := by
  unfold copyBytes
  generalize List.range n = l
  induction l with
  | nil => exact fun a h => h
  | cons i l ih =>
    intro a h
    rw [List.foldl_cons]
    rcases hr : readByte a src.page (src.off + i) with _ | v
    · exact ih a h
    · exact ih _ (Inv_writeByte a _ _ _ h)

/-- C3: the invariant `offset ≤ size` holds for every page after a
successful creation and is preserved by `rkArenaAlloc`,
`rkArenaAllocZeroed`, `rkArenaRealloc` and `rkResetArena`, provided every
allocation request is positive and at most the arena's page capacity. -/
theorem C3_offset_le_size :
    (∀ b ps a0 b1, rkNewArena ok junk H A b ps = (some a0, b1) → Inv a0) ∧
    (∀ b a n, Inv a → 0 < n → n ≤ a.pageSize →
      Inv (rkArenaAlloc ok junk H b a n).2.1) ∧
    (∀ b a n, Inv a → 0 < n → n ≤ a.pageSize →
      Inv (rkArenaAllocZeroed ok junk H b a n).2.1) ∧
    (∀ b a ptr oldSize newSize, Inv a → 0 < newSize →
      newSize ≤ a.pageSize →
      Inv (rkArenaRealloc ok junk H b a ptr oldSize newSize).2.1) ∧
    (∀ a, Inv (rkResetArena a)) := by
  refine ⟨?_, ?_, ?_, ?_, ?_⟩
  · intro b ps a0 b1 h
    obtain ⟨-, -, ha, -⟩ := newArena_inv ok junk H A b ps a0 b1 h
    subst ha
    intro p hp
    rcases List.mem_singleton.mp hp with rfl
    exact Nat.zero_le _
  · intro b a n hinv _ hn
    exact allocInv ok junk H b a n hinv hn
  · intro b a n hinv _ hn
    show Inv (rkArenaAllocZeroed ok junk H b a n).2.1
    rcases hstep : rkArenaAlloc ok junk H b a n with ⟨r, a1, b1⟩
    have h1 : Inv a1 := by
      have := allocInv ok junk H b a n hinv hn
      rw [hstep] at this
      exact this
    cases r with
    | none => simp only [rkArenaAllocZeroed, hstep]; exact h1
    | some q =>
      simp only [rkArenaAllocZeroed, hstep]
      rw [zeroBytes_eq_memsetZero]
      exact Inv_memsetZero a1 q n h1
  · intro b a ptr oldSize newSize hinv _ hn
    show Inv (rkArenaRealloc ok junk H b a ptr oldSize newSize).2.1
    rcases hstep : rkArenaAlloc ok junk H b a newSize with ⟨r, a1, b1⟩
    have h1 : Inv a1 := by
      have := allocInv ok junk H b a newSize hinv hn
      rw [hstep] at this
      exact this
    cases r with
    | none => simp only [rkArenaRealloc, hstep]; exact h1
    | some q =>
      simp only [rkArenaRealloc, hstep]
      exact Inv_copyBytes ptr q oldSize a1 h1
  · intro a p hp
    unfold rkResetArena at hp
    simp only at hp
    rcases List.mem_map.mp hp with ⟨pg, -, heq⟩
    rw [← heq]
    exact Nat.zero_le _

/-- C3 witness: the invariant conjunction applied at a concrete state. -/
theorem C3_offset_le_size_witness :
    Inv (rkArenaAlloc (fun _ => true) (fun _ _ => 0) 40 ⟨2, [], []⟩
      ⟨0, 8, [⟨1, fun _ => 0, 3, 8⟩]⟩ 5).2.1 :=
  (C3_offset_le_size (fun _ => true) (fun _ _ => 0) 40 16).2.1
    ⟨2, [], []⟩ ⟨0, 8, [⟨1, fun _ => 0, 3, 8⟩]⟩ 5
    (by decide) (by decide) (by decide)

/-- C1 (amended): on a nonempty chain, and provided the `size_t` sum
`head.offset + numBytes` does not wrap (`< 2 ^ 64`), `rkArenaAlloc` bumps
the head and returns the pre-bump pointer when `offset + numBytes ≤ size`,
and otherwise — when the backend grants the mapping — prepends one fresh
page of exactly `pageSize` capacity, serves the whole request from it at
offset 0, and leaves the old head (offset included) unchanged in the tail. -/
theorem C1_alloc_behavior (b : Backend) (a : rkArena) (n : Nat)
    (hd : rkAllocPage) (t : List rkAllocPage)
    (hcurr : a.curr = hd :: t) (hnow : hd.offset + n < W) :
    (hd.offset + n ≤ hd.size →
      rkArenaAlloc ok junk H b a n =
        (some ⟨hd.id, hd.offset⟩,
         ⟨a.selfId, a.pageSize,
          ⟨hd.id, hd.mem, hd.offset + n, hd.size⟩ :: t⟩, b)) ∧
    (hd.size < hd.offset + n → ok b.calls = true →
      rkArenaAlloc ok junk H b a n =
        (some ⟨b.calls, 0⟩,
         ⟨a.selfId, a.pageSize,
          ⟨b.calls, junk b.calls, n, a.pageSize⟩ :: hd :: t⟩,
         ⟨b.calls + 1, b.acquired ++ [(b.calls, (H + a.pageSize) % W)],
          b.released⟩)) := by
  obtain ⟨sid, ps, curr⟩ := a
  simp only at hcurr
  subst hcurr
  have hmod : (hd.offset + n) % W = hd.offset + n := Nat.mod_eq_of_lt hnow
  have hnW : n % W = n := Nat.mod_eq_of_lt (by omega)
  constructor
  · intro hle
    rw [alloc_cons, if_neg (by rw [hmod]; omega), hmod]
  · intro hgt hok
    rw [alloc_cons, if_pos (by rw [hmod]; omega), if_pos hok, hnW]

/-- C1 witness: both branches of the theorem at concrete inputs. -/
theorem C1_alloc_behavior_witness :
    rkArenaAlloc (fun _ => true) (fun _ _ => 0) 40 ⟨2, [], []⟩
        ⟨0, 8192, [⟨1, fun _ => 0, 8, 8192⟩]⟩ 16 =
      (some ⟨1, 8⟩, ⟨0, 8192, [⟨1, fun _ => 0, 24, 8192⟩]⟩, ⟨2, [], []⟩) :=
  (C1_alloc_behavior (fun _ => true) (fun _ _ => 0) 40 ⟨2, [], []⟩
    ⟨0, 8192, [⟨1, fun _ => 0, 8, 8192⟩]⟩ 16 ⟨1, fun _ => 0, 8, 8192⟩ []
    rfl (by decide)).1 (by decide)

/-- C1 counterexample: the claim as stated fails when the `size_t` sum
wraps.  With head offset 8 in a page of capacity 8192 and request
`2 ^ 64 - 4`, the mathematical `offset + numBytes` exceeds `size` (second
conjunct), so the claim prescribes a fresh page serving the request at
offset 0; the code instead computes `(8 + (2 ^ 64 - 4)) mod 2 ^ 64 = 4 ≤
8192`, takes the bump path, creates no page, returns the pointer at offset
8 and leaves the head offset at 4. -/
theorem C1_counterexample :
    rkArenaAlloc (fun _ => true) (fun _ _ => 0) 40 ⟨2, [], []⟩
        ⟨0, 8192, [⟨1, fun _ => 0, 8, 8192⟩]⟩ (2 ^ 64 - 4) =
      (some ⟨1, 8⟩, ⟨0, 8192, [⟨1, fun _ => 0, 4, 8192⟩]⟩, ⟨2, [], []⟩) ∧
    8192 < 8 + (2 ^ 64 - 4) := by
  constructor
  · rfl
  · norm_num

/-- C9 (amended): with assertions compiled out and no `size_t` wrap
(`head.offset + numBytes < 2 ^ 64`), an oversized request
(`numBytes > pageSize`) on a well-formed arena whose page acquisition
succeeds is served in full from a fresh page: the call does not fail, and
the new head ends with `offset = numBytes` strictly above its capacity
`pageSize`, breaking the `offset ≤ size` invariant. -/
theorem C9_oversized_request (b : Backend) (a : rkArena) (n : Nat)
    (hd : rkAllocPage) (t : List rkAllocPage)
    (hwf : WF b a) (hcurr : a.curr = hd :: t)
    (hbig : a.pageSize < n) (hnow : hd.offset + n < W)
    (hok : ok b.calls = true) :
    rkArenaAlloc ok junk H b a n =
      (some ⟨b.calls, 0⟩,
       ⟨a.selfId, a.pageSize,
        ⟨b.calls, junk b.calls, n, a.pageSize⟩ :: hd :: t⟩,
       ⟨b.calls + 1, b.acquired ++ [(b.calls, (H + a.pageSize) % W)],
        b.released⟩) ∧
    ¬ Inv (rkArenaAlloc ok junk H b a n).2.1 := by
  obtain ⟨hoff, hsz, hlt, hnd⟩ := hwf
  have hszhd : hd.size = a.pageSize := hsz hd (by rw [hcurr]; exact List.mem_cons_self _ _)
  obtain ⟨sid, ps, curr⟩ := a
  simp only at hcurr hszhd hbig
  subst hcurr
  have hmod : (hd.offset + n) % W = hd.offset + n := Nat.mod_eq_of_lt hnow
  have hnW : n % W = n := Nat.mod_eq_of_lt (by omega)
  have heq : rkArenaAlloc ok junk H b ⟨sid, ps, hd :: t⟩ n =
      (some ⟨b.calls, 0⟩,
       ⟨sid, ps, ⟨b.calls, junk b.calls, n, ps⟩ :: hd :: t⟩,
       ⟨b.calls + 1, b.acquired ++ [(b.calls, (H + ps) % W)],
        b.released⟩) := by
    rw [alloc_cons, if_pos (by rw [hmod]; omega), if_pos hok, hnW]
  refine ⟨heq, ?_⟩
  rw [heq]
  intro hinv
  have := hinv ⟨b.calls, junk b.calls, n, ps⟩ (List.mem_cons_self _ _)
  simp only at this
  omega

/-- C9 witness: an oversized request (24 bytes against capacity 16) is
served from a fresh page whose final offset 24 exceeds its capacity. -/
theorem C9_oversized_request_witness :
    rkArenaAlloc (fun _ => true) (fun _ _ => 0) 40 ⟨2, [], []⟩
        ⟨0, 16, [⟨1, fun _ => 0, 4, 16⟩]⟩ 24 =
      (some ⟨2, 0⟩,
       ⟨0, 16, [⟨2, (fun _ _ => 0) 2, 24, 16⟩, ⟨1, fun _ => 0, 4, 16⟩]⟩,
       ⟨3, [(2, 56)], []⟩) ∧
    ¬ Inv (rkArenaAlloc (fun _ => true) (fun _ _ => 0) 40 ⟨2, [], []⟩
        ⟨0, 16, [⟨1, fun _ => 0, 4, 16⟩]⟩ 24).2.1 :=
  C9_oversized_request (fun _ => true) (fun _ _ => 0) 40 ⟨2, [], []⟩
    ⟨0, 16, [⟨1, fun _ => 0, 4, 16⟩]⟩ 24 ⟨1, fun _ => 0, 4, 16⟩ []
    (by decide) rfl (by decide) (by decide) (by decide)

/-- C9 counterexample: the claim as stated fails when the `size_t` sum
wraps.  With head offset 16 in a page of capacity 8192 and request
`2 ^ 64 - 8 > 8192`, the wrapped sum is `8 ≤ 8192`: the code takes the bump
path — no page is created, the request is *not* served from a fresh page,
and the invariant `offset ≤ size` still holds afterwards. -/
theorem C9_counterexample :
    (8192 < 2 ^ 64 - 8) ∧
    rkArenaAlloc (fun _ => true) (fun _ _ => 0) 40 ⟨2, [], []⟩
        ⟨0, 8192, [⟨1, fun _ => 0, 16, 8192⟩]⟩ (2 ^ 64 - 8) =
      (some ⟨1, 16⟩, ⟨0, 8192, [⟨1, fun _ => 0, 8, 8192⟩]⟩, ⟨2, [], []⟩) ∧
    Inv (⟨0, 8192, [⟨1, fun _ => 0, 8, 8192⟩]⟩ : rkArena) := by
  refine ⟨by norm_num, rfl, ?_⟩
  intro p hp
  rcases List.mem_singleton.mp hp with rfl
  decide

/-- C5: the failing input for the creation leak.  With a backend granting
the header mapping (call 0) but refusing the initial page mapping (call 1),
`rkNewArena` returns the failure indicator while the 16-byte header region
`(0, 16)` stays acquired and is never released — a partially constructed
state the claim rules out. -/
theorem C5_create_leak :
    rkNewArena (fun i => i == 0) (fun _ _ => 0) 40 16 ⟨0, [], []⟩ 8192 =
      (none, ⟨2, [(0, 16)], []⟩) := rfl

/-- C10: the two implementations of the public interface — arena_alloc.c
(the `RkArena` definitions) and the header-only rkarena.h (the `RkArenaHdr`
definitions) — agree on every operation and every input, arena state
included; in particular the byte-loop zeroing and the `memset` zeroing
coincide. -/
theorem C10_header_equiv :
    (∀ b, RkArenaHdr.rkCreateArena ok junk H A b =
      rkCreateArena ok junk H A b) ∧
    (∀ b ps, RkArenaHdr.rkCreateArenaWithPageSize ok junk H A b ps =
      rkCreateArenaWithPageSize ok junk H A b ps) ∧
    (∀ b a n, RkArenaHdr.rkArenaAlloc ok junk H b a n =
      rkArenaAlloc ok junk H b a n) ∧
    (∀ b a n, RkArenaHdr.rkArenaAllocZeroed ok junk H b a n =
      rkArenaAllocZeroed ok junk H b a n) ∧
    (∀ b a ptr oldSize newSize,
      RkArenaHdr.rkArenaRealloc ok junk H b a ptr oldSize newSize =
        rkArenaRealloc ok junk H b a ptr oldSize newSize) ∧
    (∀ a, RkArenaHdr.rkResetArena a = rkResetArena a) ∧
    (∀ b a, RkArenaHdr.rkFreeArena H A b a = rkFreeArena H A b a) := by
  refine ⟨fun b => rfl, fun b ps => rfl, fun b a n => rfl, ?_,
    fun b a p o m => rfl, fun a => rfl, fun b a => rfl⟩
  intro b a n
  show RkArenaHdr.rkArenaAllocZeroed ok junk H b a n =
    rkArenaAllocZeroed ok junk H b a n
  unfold RkArenaHdr.rkArenaAllocZeroed rkArenaAllocZeroed
  have hsame : RkArenaHdr.rkArenaAlloc ok junk H b a n =
      rkArenaAlloc ok junk H b a n := rfl
  rw [hsame]
  rcases h : rkArenaAlloc ok junk H b a n with ⟨r, a1, b1⟩
  cases r with
  | none => rfl
  | some q =>
    dsimp only
    rw [zeroBytes_eq_memsetZero]

/-- C6: for every successfully created arena and any sequence of client
operations, `rkFreeArena` releases every page of the final chain exactly
once — each with the byte count of its acquisition,
`sizeof(rkAllocPage) + size` — followed by the arena header exactly once
with `sizeof(rkArena)` bytes; in the counting backend the releases are a
permutation of the acquisitions, so the two counts agree. -/
theorem C6_free_releases (ps : Nat) (ops : List Op) (ab : rkArena × Backend)
    (h : lifeRun ok junk H A ps ops = some ab) :
    (rkFreeArena H A ab.2 ab.1).released =
      pageAcqs H ab.1 ++ [(ab.1.selfId, A)] ∧
    (rkFreeArena H A ab.2 ab.1).released.Perm
      (rkFreeArena H A ab.2 ab.1).acquired ∧
    (rkFreeArena H A ab.2 ab.1).released.length =
      (rkFreeArena H A ab.2 ab.1).acquired.length := by
  unfold lifeRun at h
  rcases hc : rkNewArena ok junk H A ⟨0, [], []⟩ ps with ⟨o, b1⟩
  rw [hc] at h
  cases o with
  | none => simp at h
  | some a0 =>
    have hab : runOps ok junk H b1 a0 ops = ab := by simpa using h
    have hAI0 : AcqInv H A b1 a0 := by
      obtain ⟨-, -, ha, hb⟩ := newArena_inv ok junk H A ⟨0, [], []⟩ ps a0 b1 hc
      subst ha; subst hb
      exact ⟨by simp [pageAcqs], rfl⟩
    have hAI := runOpsAcq ok junk H A ops b1 a0 hAI0
    rw [hab] at hAI
    obtain ⟨hacq, hrel⟩ := hAI
    rw [freeArena_released]
    have hr : ab.2.released ++ pageAcqs H ab.1 ++ [(ab.1.selfId, A)] =
        pageAcqs H ab.1 ++ [(ab.1.selfId, A)] := by
      rw [hrel]; simp
    refine ⟨hr, ?_, ?_⟩
    · show (ab.2.released ++ pageAcqs H ab.1 ++ [(ab.1.selfId, A)]).Perm
        ab.2.acquired
      rw [hr, hacq]
      exact (List.perm_append_singleton _ _).trans
        (((List.reverse_perm (pageAcqs H ab.1)).symm).cons _)
    · show (ab.2.released ++ pageAcqs H ab.1 ++ [(ab.1.selfId, A)]).length =
        ab.2.acquired.length
      rw [hr, hacq]
      simp

/-- C6 witness: a concrete lifetime (create, alloc, reset, zeroed alloc
forcing a second page) with release count equal to acquisition count. -/
theorem C6_free_releases_witness :
    (let run := (lifeRun (fun _ => true) (fun _ _ => 0) 40 16 64
        [Op.alloc 5, Op.reset, Op.allocZeroed 64]).getD
        (⟨0, 0, []⟩, ⟨0, [], []⟩);
     (rkFreeArena 40 16 run.2 run.1).released.length =
       (rkFreeArena 40 16 run.2 run.1).acquired.length) :=
  (C6_free_releases (fun _ => true) (fun _ _ => 0) 40 16 64
    [Op.alloc 5, Op.reset, Op.allocZeroed 64] _ rfl).2.2

/-- C7 (amended: page capacity below `2 ^ 63`, so the `size_t` offset
arithmetic cannot wrap): a successful `rkArenaAllocZeroed` of `n ∈
(0, pageSize]` bytes on a well-formed arena returns a region whose `n`
bytes all read zero — whatever the bytes held before — and a failed one
returns the failure indicator with the arena unchanged. -/
theorem C7_allocZeroed_zeroes (b : Backend) (a : rkArena) (n : Nat)
    (hwf : WF b a) (hps : 2 * a.pageSize < W)
    (hn0 : 0 < n) (hn : n ≤ a.pageSize) :
    (∀ q a' b', rkArenaAllocZeroed ok junk H b a n = (some q, a', b') →
      ∀ i, i < n → readByte a' q.page (q.off + i) = some 0) ∧
    (∀ a' b', rkArenaAllocZeroed ok junk H b a n = (none, a', b') →
      a' = a) := by
  rcases hstep : rkArenaAlloc ok junk H b a n with ⟨r, a1, b1⟩
  obtain ⟨hwf1, -, -, -, -, -, hsucc⟩ :=
    allocStep ok junk H b a n hwf hps hn r a1 b1 hstep
  constructor
  · intro q a' b' heq
    simp only [rkArenaAllocZeroed, hstep] at heq
    cases r with
    | none => simp at heq
    | some q0 =>
      injection heq with h1 h2
      injection h2 with h2 h3
      injection h1 with h1
      subst h2
      obtain ⟨hin, -⟩ := hsucc q0 rfl
      have hv := readByte_isSome_of_inState b1 a1 hwf1 (q0, n) hin
      intro i hi
      rw [← h1]
      exact (zeroBytes_spec q0 n a1 hv).1 i hi
  · intro a' b' heq
    simp only [rkArenaAllocZeroed, hstep] at heq
    cases r with
    | some q0 => simp at heq
    | none =>
      injection heq with h1 h2
      injection h2 with h2 h3
      subst h2
      exact (alloc_none ok junk H b a n a1 b1 hstep).1

/-- C7 witness: zeroed allocation over memory previously holding byte 7
reads back zero. -/
theorem C7_allocZeroed_zeroes_witness :
    readByte (rkArenaAllocZeroed (fun _ => true) (fun _ _ => 7) 40
        ⟨2, [], []⟩ ⟨0, 8, [⟨1, fun _ => 7, 2, 8⟩]⟩ 4).2.1 1 5 = some 0 :=
  (C7_allocZeroed_zeroes (fun _ => true) (fun _ _ => 7) 40 ⟨2, [], []⟩
      ⟨0, 8, [⟨1, fun _ => 7, 2, 8⟩]⟩ 4 (by decide) (by decide) (by decide)
      (by decide)).1
    ⟨1, 2⟩ _ _ rfl 3 (by decide)

/-- C2 (amended: page capacity below `2 ^ 63`, so the `size_t` offset
arithmetic cannot wrap): along any sequence of `rkArenaAlloc` calls with
positive, in-capacity requests and no intervening reset, the successfully
returned regions are pairwise non-overlapping, and each lies inside the
bumped prefix of a page of capacity at least the requested size. -/
theorem C2_no_overlap (b : Backend) (a : rkArena) (ns : List Nat)
    (hwf : WF b a) (hps : 2 * a.pageSize < W)
    (hns : ∀ n ∈ ns, 0 < n ∧ n ≤ a.pageSize) :
    ∀ res a' b', runAllocs ok junk H b a ns = (res, a', b') →
      List.Pairwise Disjoint2 (regionsOf res ns) ∧
      ∀ r ∈ regionsOf res ns, ∃ p ∈ a'.curr,
        p.id = r.1.page ∧ r.1.off + r.2 ≤ p.offset ∧ p.offset ≤ p.size := by
  intro res a' b' heq
  obtain ⟨hwf', -, -, hin, hpw⟩ :=
    runAllocsGood ok junk H ns b a [] hwf hps (fun n hn => (hns n hn).2)
      (fun r hr => absurd hr (List.not_mem_nil r)) List.Pairwise.nil
      res a' b' heq
  refine ⟨by simpa using hpw, ?_⟩
  intro r hr
  obtain ⟨p, hp, hpid, hle⟩ := hin r (by simpa using hr)
  exact ⟨p, hp, hpid, hle, hwf'.1 p hp⟩

/-- C2 witness: two in-capacity allocations from a fresh page produce
pairwise disjoint regions. -/
theorem C2_no_overlap_witness :
    List.Pairwise Disjoint2 (regionsOf
      (runAllocs (fun _ => true) (fun _ _ => 0) 40 ⟨2, [], []⟩
        ⟨0, 8, [⟨1, fun _ => 0, 0, 8⟩]⟩ [3, 4]).1 [3, 4]) :=
  (C2_no_overlap (fun _ => true) (fun _ _ => 0) 40 ⟨2, [], []⟩
      ⟨0, 8, [⟨1, fun _ => 0, 0, 8⟩]⟩ [3, 4] (by decide) (by decide)
      (by decide) _ _ _ rfl).1

/-- C2 counterexample: the claim as stated fails for a page capacity of
`2 ^ 63`.  Three successful positive requests of at most the capacity
(`2 ^ 63`, `2 ^ 63`, `8`) on one page make the `size_t` bump wrap
(`2 ^ 63 + 2 ^ 63 ≡ 0`), so the third region `[0, 8)` overlaps the first
`[0, 2 ^ 63)`. -/
theorem C2_counterexample :
    (∀ n ∈ [2 ^ 63, 2 ^ 63, 8], 0 < n ∧ n ≤ (2 ^ 63 : Nat)) ∧
    WF ⟨2, [], []⟩ ⟨0, 2 ^ 63, [⟨1, fun _ => 0, 0, 2 ^ 63⟩]⟩ ∧
    (runAllocs (fun _ => true) (fun _ _ => 0) 40 ⟨2, [], []⟩
        ⟨0, 2 ^ 63, [⟨1, fun _ => 0, 0, 2 ^ 63⟩]⟩ [2 ^ 63, 2 ^ 63, 8]).1 =
      [some ⟨1, 0⟩, some ⟨1, 2 ^ 63⟩, some ⟨1, 0⟩] ∧
    ¬ List.Pairwise Disjoint2 (regionsOf
        [some ⟨1, 0⟩, some ⟨1, 2 ^ 63⟩, some ⟨1, 0⟩]
        [2 ^ 63, 2 ^ 63, 8]) := by
  refine ⟨by decide, by decide, rfl, ?_⟩
  intro hpw
  have hre : regionsOf [some ⟨1, 0⟩, some ⟨1, 2 ^ 63⟩, some ⟨1, 0⟩]
      [2 ^ 63, 2 ^ 63, 8] =
      [(⟨1, 0⟩, 2 ^ 63), (⟨1, 2 ^ 63⟩, 2 ^ 63), (⟨1, 0⟩, 8)] := rfl
  rw [hre] at hpw
  have h13 : Disjoint2 (⟨1, 0⟩, 2 ^ 63) (⟨1, 0⟩, 8) :=
    (List.pairwise_cons.mp hpw).1 (⟨1, 0⟩, 8) (by simp)
  rcases h13 with h | h | h
  · exact h rfl
  · exact absurd h (by decide)
  · exact absurd h (by decide)

/-- C8 (amended: page capacity below `2 ^ 63`, so the `size_t` offset
arithmetic cannot wrap): a successful `rkArenaRealloc` with
`oldSize ≤ newSize ≤ pageSize` on a handed-out region returns a fresh
region disjoint from the old one, whose first `oldSize` bytes equal the
old region's prior bytes, while the old region's bytes are unchanged. -/
theorem C8_realloc_copies (b : Backend) (a : rkArena) (ptr : Ptr)
    (oldSize newSize : Nat)
    (hwf : WF b a) (hps : 2 * a.pageSize < W)
    (hold : InState a (ptr, oldSize)) (hsz : oldSize ≤ newSize)
    (hn0 : 0 < newSize) (hn : newSize ≤ a.pageSize) :
    ∀ q a' b',
      rkArenaRealloc ok junk H b a ptr oldSize newSize = (some q, a', b') →
      Disjoint2 (q, newSize) (ptr, oldSize) ∧
      (∀ i, i < oldSize →
        readByte a' q.page (q.off + i) = readByte a ptr.page (ptr.off + i)) ∧
      (∀ i, i < oldSize →
        readByte a' ptr.page (ptr.off + i) =
          readByte a ptr.page (ptr.off + i)) ∧
      (∀ i, i < oldSize → (readByte a ptr.page (ptr.off + i)).isSome) := by
  rcases hstep : rkArenaAlloc ok junk H b a newSize with ⟨r, a1, b1⟩
  obtain ⟨hwf1, -, -, -, hmono, hread, hsucc⟩ :=
    allocStep ok junk H b a newSize hwf hps hn r a1 b1 hstep
  intro q a' b' heq
  simp only [rkArenaRealloc, hstep] at heq
  cases r with
  | none => simp at heq
  | some q0 =>
    injection heq with h1 h2
    injection h2 with h2 h3
    injection h1 with h1
    subst h2
    rw [← h1]
    obtain ⟨hin, hdisj⟩ := hsucc q0 rfl
    have hqd : Disjoint2 (q0, newSize) (ptr, oldSize) :=
      hdisj (ptr, oldSize) hold
    have hptrpage : ∃ p ∈ a.curr, p.id = ptr.page := by
      obtain ⟨p, hp, hpid, -⟩ := hold
      exact ⟨p, hp, hpid⟩
    have hreadptr : ∀ idx, readByte a1 ptr.page idx = readByte a ptr.page idx :=
      fun idx => hread ptr.page idx hptrpage
    have hsrcSome : ∀ i, i < oldSize →
        (readByte a1 ptr.page (ptr.off + i)).isSome := by
      intro i hi
      exact readByte_isSome_of_inState b1 a1 hwf1 (ptr, oldSize)
        (hmono (ptr, oldSize) hold) i hi
    have hdstSome : ∀ i, i < oldSize →
        (readByte a1 q0.page (q0.off + i)).isSome := by
      intro i hi
      exact readByte_isSome_of_inState b1 a1 hwf1 (q0, newSize) hin i (by omega)
    have hcd : ptr.page ≠ q0.page ∨ ptr.off + oldSize ≤ q0.off ∨
        q0.off + oldSize ≤ ptr.off := by
      rcases hqd with h | h | h
      · exact Or.inl (fun he => h he.symm)
      · dsimp only at h
        exact Or.inr (Or.inr (by omega))
      · dsimp only at h
        exact Or.inr (Or.inl h)
    obtain ⟨hc1, hc2⟩ := copyBytes_spec ptr q0 oldSize hcd a1 hsrcSome hdstSome
    refine ⟨hqd, ?_, ?_, ?_⟩
    · intro i hi
      rw [hc1 i hi, hreadptr (ptr.off + i)]
    · intro i hi
      have hcond : ptr.page ≠ q0.page ∨ ptr.off + i < q0.off ∨
          q0.off + oldSize ≤ ptr.off + i := by
        rcases hcd with h | h | h
        · exact Or.inl h
        · exact Or.inr (Or.inl (by omega))
        · exact Or.inr (Or.inr (by omega))
      rw [hc2 (ptr.page) (ptr.off + i) hcond, hreadptr (ptr.off + i)]
    · intro i hi
      exact readByte_isSome_of_inState b a hwf (ptr, oldSize) hold i hi

/-- C8 witness: reallocating the 4-byte region at offset 0 (bytes all 5)
into 8 fresh bytes copies the old contents forward. -/
theorem C8_realloc_copies_witness :
    readByte (rkArenaRealloc (fun _ => true) (fun _ _ => 0) 40 ⟨2, [], []⟩
        ⟨0, 16, [⟨1, fun _ => 5, 4, 16⟩]⟩ ⟨1, 0⟩ 4 8).2.1 1 6 =
      readByte ⟨0, 16, [⟨1, fun _ => 5, 4, 16⟩]⟩ 1 2 :=
  (C8_realloc_copies (fun _ => true) (fun _ _ => 0) 40 ⟨2, [], []⟩
      ⟨0, 16, [⟨1, fun _ => 5, 4, 16⟩]⟩ ⟨1, 0⟩ 4 8 (by decide) (by decide)
      (by decide) (by decide) (by decide) (by decide)
      ⟨1, 4⟩ _ _ rfl).2.1 2 (by decide)

/-- C7 counterexample: the claim as stated fails for a page capacity of
`2 ^ 64 - 8`.  With the single page full (`offset = size = 2 ^ 64 - 8`), a
request of 8 bytes makes the `size_t` sum wrap to 0, so the bump path
"succeeds" and returns the pointer at offset `2 ^ 64 - 8`; the zero loop
then writes past the end of the region, and the returned region's bytes do
not read back as zero (in C this is heap corruption). -/
theorem C7_counterexample :
    ((0 : Nat) < 8 ∧ (8 : Nat) ≤ 2 ^ 64 - 8) ∧
    WF ⟨2, [], []⟩
      ⟨0, 2 ^ 64 - 8, [⟨1, fun _ => 0, 2 ^ 64 - 8, 2 ^ 64 - 8⟩]⟩ ∧
    (rkArenaAllocZeroed (fun _ => true) (fun _ _ => 0) 40 ⟨2, [], []⟩
        ⟨0, 2 ^ 64 - 8, [⟨1, fun _ => 0, 2 ^ 64 - 8, 2 ^ 64 - 8⟩]⟩ 8).1 =
      some ⟨1, 2 ^ 64 - 8⟩ ∧
    (∀ i, i < 8 →
      readByte (rkArenaAllocZeroed (fun _ => true) (fun _ _ => 0) 40
          ⟨2, [], []⟩
          ⟨0, 2 ^ 64 - 8, [⟨1, fun _ => 0, 2 ^ 64 - 8, 2 ^ 64 - 8⟩]⟩ 8).2.1
        1 (2 ^ 64 - 8 + i) ≠ some 0) := by
  decide

/-- C8 counterexample: the claim as stated fails for a page capacity of
`2 ^ 64 - 8`.  The page is full (`offset = size`), the old 4-byte region at
offset 0 holds bytes 5, and `newSize = 8` makes the `size_t` bump wrap to
0: the "fresh" pointer points at offset `2 ^ 64 - 8`, the copy loop writes
past the end of the region, and the returned pointer's first `oldSize`
bytes do not equal the old bytes (in C this is out-of-bounds access). -/
theorem C8_counterexample :
    InState ⟨0, 2 ^ 64 - 8, [⟨1, fun _ => 5, 2 ^ 64 - 8, 2 ^ 64 - 8⟩]⟩
      (⟨1, 0⟩, 4) ∧
    (rkArenaRealloc (fun _ => true) (fun _ _ => 0) 40 ⟨2, [], []⟩
        ⟨0, 2 ^ 64 - 8, [⟨1, fun _ => 5, 2 ^ 64 - 8, 2 ^ 64 - 8⟩]⟩
        ⟨1, 0⟩ 4 8).1 = some ⟨1, 2 ^ 64 - 8⟩ ∧
    readByte ⟨0, 2 ^ 64 - 8, [⟨1, fun _ => 5, 2 ^ 64 - 8, 2 ^ 64 - 8⟩]⟩
      1 0 = some 5 ∧
    readByte (rkArenaRealloc (fun _ => true) (fun _ _ => 0) 40 ⟨2, [], []⟩
        ⟨0, 2 ^ 64 - 8, [⟨1, fun _ => 5, 2 ^ 64 - 8, 2 ^ 64 - 8⟩]⟩
        ⟨1, 0⟩ 4 8).2.1 1 (2 ^ 64 - 8) = none := by
  refine ⟨by decide, rfl, rfl, rfl⟩

/-- `rkResetArena` zeroes every page offset and keeps the chain length. -/
theorem resetArena_offsets (a : rkArena) :
    (∀ p ∈ (rkResetArena a).curr, p.offset = 0) ∧
    (rkResetArena a).curr.length = a.curr.length := by
  constructor
  · intro p hp
    rcases List.mem_map.mp hp with ⟨pg, -, heq⟩
    rw [← heq]
  · exact List.length_map _ _

/-- C4 (amended): after `rkResetArena` every page's offset is 0 and the
chain length is unchanged; for every chain the next successful
in-capacity `rkArenaAlloc` serves from the current head page at offset 0;
and when the chain still consists of the single original page — that is,
no overflow page was ever created — this is exactly the starting address
of the arena's first-ever allocation.  (The unamended claim fails once
the chain has grown: the post-reset allocation comes from the newest
page, not the original one.) -/
theorem C4_reset_next_alloc (b0 b1 b1' b2 : Backend) (a0 a1 a2 : rkArena)
    (ps n0 n' : Nat) (ns : List Nat) (r0 : Option Ptr)
    (res : List (Option Ptr))
    (hc : rkNewArena ok junk H A b0 ps = (some a0, b1))
    (hps : 2 * ps < W)
    (hn00 : 0 < n0) (hn0ps : n0 ≤ ps)
    (h1 : rkArenaAlloc ok junk H b1 a0 n0 = (r0, a1, b1'))
    (hns : ∀ n ∈ ns, 0 < n ∧ n ≤ ps)
    (h2 : runAllocs ok junk H b1' a1 ns = (res, a2, b2))
    (hn'0 : 0 < n') (hn'ps : n' ≤ ps) :
    (∀ p ∈ (rkResetArena a2).curr, p.offset = 0) ∧
    (rkResetArena a2).curr.length = a2.curr.length ∧
    (∀ hd2 t2, a2.curr = hd2 :: t2 →
      (rkArenaAlloc ok junk H b2 (rkResetArena a2) n').1 =
        some ⟨hd2.id, 0⟩) ∧
    (a2.curr.length = 1 →
      r0.isSome = true ∧
      (rkArenaAlloc ok junk H b2 (rkResetArena a2) n').1 = r0) := by
  obtain ⟨hok0, hok1, ha0, -⟩ := newArena_inv ok junk H A b0 ps a0 b1 hc
  have hwf0 : WF b1 a0 := newArena_wf ok junk H A b0 ps a0 b1 hc
  subst ha0
  obtain ⟨hwf1, hps1, -, -, -, -, -⟩ :=
    allocStep ok junk H b1 ⟨b0.calls, ps,
        [⟨b0.calls + 1, junk (b0.calls + 1), 0, ps⟩]⟩ n0 hwf0 hps hn0ps
      r0 a1 b1' h1
  have hcond : ¬ (((⟨b0.calls + 1, junk (b0.calls + 1), 0, ps⟩ :
      rkAllocPage).offset + n0) % W >
      (⟨b0.calls + 1, junk (b0.calls + 1), 0, ps⟩ : rkAllocPage).size) := by
    dsimp only
    rw [Nat.zero_add, Nat.mod_eq_of_lt (by omega)]
    omega
  rw [alloc_cons, if_neg hcond] at h1
  injection h1 with hr0 h1'
  injection h1' with hA1 hB1
  subst hA1
  subst hB1
  obtain ⟨hwf2, hps2, -, -, -⟩ :=
    runAllocsGood ok junk H ns b1 _ [] hwf1 (by rw [hps1]; exact hps)
      (fun n hn => by rw [hps1]; exact (hns n hn).2)
      (fun r hr => absurd hr (List.not_mem_nil r)) List.Pairwise.nil
      res a2 b2 h2
  obtain ⟨l, hl⟩ := runAllocs_ids ok junk H ns b1 _ res a2 b2 h2
  have hl' : a2.curr.map (fun p => p.id) = l ++ [b0.calls + 1] := by
    simpa using hl
  obtain ⟨sid2, psA2, curr2⟩ := a2
  simp only at hl' hps2
  refine ⟨(resetArena_offsets ⟨sid2, psA2, curr2⟩).1,
    (resetArena_offsets ⟨sid2, psA2, curr2⟩).2, ?_, ?_⟩
  · -- for every chain, the post-reset allocation serves from the head page
    intro hd2 t2 ha2
    simp only at ha2
    subst ha2
    have hsz2 : hd2.size = ps := by
      have h := hwf2.2.1 hd2 (List.mem_cons_self _ _)
      exact h.trans hps2
    show (rkArenaAlloc ok junk H b2
      ⟨sid2, psA2, ⟨hd2.id, hd2.mem, 0, hd2.size⟩ ::
        (t2.map fun p => ⟨p.id, p.mem, 0, p.size⟩)⟩ n').1 =
      some ⟨hd2.id, 0⟩
    rw [alloc_cons, if_neg (by
      dsimp only
      rw [Nat.zero_add, Nat.mod_eq_of_lt (by omega), hsz2]
      omega)]
  · intro hlen
    simp only at hlen
    have hll : l = [] := by
      have hlen2 : (curr2.map (fun p => p.id)).length = 1 := by
        rw [List.length_map]
        exact hlen
      rw [hl'] at hlen2
      simp at hlen2
      exact hlen2
    subst hll
    cases curr2 with
    | nil => simp at hlen
    | cons pg2 rest =>
      cases rest with
      | cons x xs => simp at hlen
      | nil =>
        have hpg2id : pg2.id = b0.calls + 1 := by simpa using hl'
        have hpg2sz : pg2.size = ps := by
          have h := hwf2.2.1 pg2 (List.mem_cons_self _ _)
          exact h.trans hps2
        refine ⟨by rw [← hr0]; rfl, ?_⟩
        show (rkArenaAlloc ok junk H b2
          ⟨sid2, psA2, [⟨pg2.id, pg2.mem, 0, pg2.size⟩]⟩ n').1 = r0
        rw [alloc_cons, if_neg (by
          dsimp only
          rw [Nat.zero_add, Nat.mod_eq_of_lt (by omega), hpg2sz]
          omega)]
        dsimp only
        rw [hpg2id, ← hr0]

/-- C4 witness: create (capacity 8), allocate 8 (the first-ever
allocation), reset while the chain still has its single original page,
and allocate 8 again: the same pointer comes back. -/
theorem C4_reset_next_alloc_witness :
    (some (⟨1, 0⟩ : Ptr)).isSome = true ∧
    (rkArenaAlloc (fun _ => true) (fun _ _ => 0) 40
        ⟨2, [(0, 16), (1, 48)], []⟩
        (rkResetArena ⟨0, 8, [⟨1, fun _ => 0, 8, 8⟩]⟩) 8).1 =
      some ⟨1, 0⟩ :=
  (C4_reset_next_alloc (fun _ => true) (fun _ _ => 0) 40 16
      ⟨0, [], []⟩ ⟨2, [(0, 16), (1, 48)], []⟩ ⟨2, [(0, 16), (1, 48)], []⟩
      ⟨2, [(0, 16), (1, 48)], []⟩
      ⟨0, 8, [⟨1, fun _ => 0, 0, 8⟩]⟩ ⟨0, 8, [⟨1, fun _ => 0, 8, 8⟩]⟩
      ⟨0, 8, [⟨1, fun _ => 0, 8, 8⟩]⟩ 8 8 8 [] (some ⟨1, 0⟩) []
      rfl (by decide) (by decide) (by decide) rfl (by decide) rfl
      (by decide) (by decide)).2.2.2 (by decide)

/-- C4 counterexample: the claim as stated fails once the chain has grown.
Create an arena of capacity 8, allocate 8 (the first-ever allocation
returns the start of page 1), allocate 8 again (a second page, id 2, is
created), reset.  Every offset is 0 again and the chain length is
unchanged (2), yet the next successful allocation returns the start of
page 2 — not the first-ever allocation's address on page 1. -/
theorem C4_counterexample :
    (let ok := fun (_ : Nat) => true
     let junk := fun (_ _ : Nat) => 0
     let a0 := (rkNewArena ok junk 40 16 ⟨0, [], []⟩ 8).1.getD ⟨0, 0, []⟩
     let b1 := (rkNewArena ok junk 40 16 ⟨0, [], []⟩ 8).2
     let s1 := rkArenaAlloc ok junk 40 b1 a0 8
     let s2 := rkArenaAlloc ok junk 40 s1.2.2 s1.2.1 8
     let a3 := rkResetArena s2.2.1
     let s3 := rkArenaAlloc ok junk 40 s2.2.2 a3 8
     s1.1 = some ⟨1, 0⟩ ∧
     s2.2.1.curr.length = 2 ∧
     (∀ p ∈ a3.curr, p.offset = 0) ∧
     a3.curr.length = s2.2.1.curr.length ∧
     s3.1 = some ⟨2, 0⟩ ∧
     s3.1 ≠ s1.1) := by
  decide

end RkArena
